import Mathlib

/-!
# Verification of the `TranscriberService` payload converter

A shallow embedding of `transcriber_service.py`: the service converts free-form
text into provider-specific JSON request payloads for several AI completion
APIs.  Python dictionaries (whose insertion order is observable) are modelled
as ordered association lists, Python values flowing through the converter as
the inductive type `PyVal`, keyword-argument passing as an association list of
option name to value, and raised exceptions as `Except String`.

The nondeterministic `datetime.utcnow().isoformat()` read in
`text_to_generic` is modelled by threading the timestamp string as an explicit
`now` argument.

Python floats only occur here as literal constants with short decimal
expansions (0.7, 1.0, ...) and as caller-supplied option values; they are
modelled in fixed-point decimal form: `PyVal.float m e` denotes `m / 10 ^ e`,
printed exactly as Python's `repr` prints such constants.
-/

/-- A Python value as it occurs in the converter: `None`, strings, ints,
floats (in decimal fixed-point form, `float m e` denoting `m / 10 ^ e`),
booleans, lists and (insertion-ordered) string-keyed dicts. -/
inductive PyVal : Type where
  | none : PyVal
  | str : String → PyVal
  | int : Int → PyVal
  | float : Int → Nat → PyVal
  | bool : Bool → PyVal
  | list : List PyVal → PyVal
  | dict : List (String × PyVal) → PyVal

/-- Python truthiness (`bool(x)`): `None`, `""`, `0`, `0.0`, `False`, `[]`
and `{}` are falsy, everything else is truthy. -/
def truthy : PyVal → Bool
  | .none => false
  | .str s => if s = "" then false else true
  | .int n => if n = 0 then false else true
  | .float m _ => if m = 0 then false else true
  | .bool b => b
  | .list [] => false
  | .list (_ :: _) => true
  | .dict [] => false
  | .dict (_ :: _) => true

/-- Python `d[k] = v` on an insertion-ordered dict: an existing key keeps its
position and gets the new value, a fresh key is appended at the end. -/
def setKey : List (String × PyVal) → String → PyVal → List (String × PyVal)
  | [], k, v => [(k, v)]
  | (k', v') :: rest, k, v =>
      if k' = k then (k', v) :: rest else (k', v') :: setKey rest k v

/-- Python `d.update(other)`: assign each of `other`'s pairs in order. -/
def dictUpdate (d : List (String × PyVal)) (other : List (String × PyVal)) :
    List (String × PyVal) :=
  other.foldl (fun acc kv => setKey acc kv.1 kv.2) d

/-- First value bound to `key`, if any (Python dict lookup; keyword-argument
dicts never contain duplicate keys). -/
def lookupKey : List (String × PyVal) → String → Option PyVal
  | [], _ => Option.none
  | (k, v) :: rest, key => if k = key then Option.some v else lookupKey rest key

/-- Python's `str.lower()` (ASCII case folding, the only case the provider
names exercise), written structurally so terms reduce definitionally. -/
def pyLower (s : String) : String := String.mk (s.data.map Char.toLower)

/-- The value a builder parameter receives: the caller-supplied keyword value
when present, the default from the builder's signature otherwise. -/
def getKw (kwargs : List (String × PyVal)) (name : String) (dflt : PyVal) : PyVal :=
  (lookupKey kwargs name).getD dflt

namespace TranscriberService

/-- `TranscriberService.SUPPORTED_PROVIDERS`. -/
def SUPPORTED_PROVIDERS : List String :=
  ["openai", "anthropic", "ollama", "google", "cohere", "huggingface", "generic"]

/-- `TranscriberService.text_to_openai`.  Defaults (supplied by `convert`):
`model="gpt-4"`, `system_message=None`, `temperature=0.7`, `max_tokens=None`. -/
def text_to_openai (text : String) (model system_message temperature max_tokens : PyVal) :
    PyVal :=
  let messages :=
    (if truthy system_message then
       [PyVal.dict [("role", .str "system"), ("content", system_message)]]
     else []) ++
    [PyVal.dict [("role", .str "user"), ("content", .str text)]]
  let payload := [("model", model), ("messages", PyVal.list messages),
                  ("temperature", temperature)]
  PyVal.dict (if truthy max_tokens then setKey payload "max_tokens" max_tokens else payload)

/-- `TranscriberService.text_to_anthropic`.  Defaults:
`model="claude-3-5-sonnet-20241022"`, `system_message=None`, `temperature=1.0`,
`max_tokens=1024`. -/
def text_to_anthropic (text : String) (model system_message temperature max_tokens : PyVal) :
    PyVal :=
  let payload := [("model", model), ("max_tokens", max_tokens),
                  ("temperature", temperature),
                  ("messages", PyVal.list [PyVal.dict
                    [("role", .str "user"), ("content", .str text)]])]
  PyVal.dict (if truthy system_message then setKey payload "system" system_message else payload)

/-- `TranscriberService.text_to_ollama`.  Defaults: `model="llama2"`,
`system_message=None`, `stream=False`. -/
def text_to_ollama (text : String) (model system_message stream : PyVal) : PyVal :=
  let payload := [("model", model), ("prompt", PyVal.str text), ("stream", stream)]
  PyVal.dict (if truthy system_message then setKey payload "system" system_message else payload)

/-- `TranscriberService.text_to_google`.  Defaults: `model="gemini-pro"` (the
model is accepted but never embedded in the payload), `system_message=None`,
`temperature=0.7`, `max_tokens=None`. -/
def text_to_google (text : String) (model system_message temperature max_tokens : PyVal) :
    PyVal :=
  let contents :=
    (if truthy system_message then
       [PyVal.dict [("role", .str "user"),
                    ("parts", .list [.dict [("text", system_message)]])]]
     else []) ++
    [PyVal.dict [("role", .str "user"),
                 ("parts", .list [.dict [("text", .str text)]])]]
  let genConfig := [("temperature", temperature)]
  PyVal.dict [("contents", PyVal.list contents),
    ("generationConfig", PyVal.dict
      (if truthy max_tokens then setKey genConfig "maxOutputTokens" max_tokens else genConfig))]

/-- `TranscriberService.text_to_cohere`.  Defaults: `model="command"`,
`system_message=None`, `temperature=0.7`, `max_tokens=None`. -/
def text_to_cohere (text : String) (model system_message temperature max_tokens : PyVal) :
    PyVal :=
  let payload := [("model", model), ("message", PyVal.str text),
                  ("temperature", temperature)]
  let payload := if truthy system_message then setKey payload "preamble" system_message
                 else payload
  PyVal.dict (if truthy max_tokens then setKey payload "max_tokens" max_tokens else payload)

/-- The default `parameters` block of `text_to_huggingface`. -/
def hfDefaultParameters : PyVal :=
  .dict [("max_new_tokens", .int 250), ("temperature", .float 7 1),
         ("return_full_text", .bool false)]

/-- `TranscriberService.text_to_huggingface`.  Defaults: `model="gpt2"`
(accepted but never embedded in the payload), `parameters=None`. -/
def text_to_huggingface (text : String) (model parameters : PyVal) : PyVal :=
  let _ := model
  PyVal.dict [("inputs", .str text),
    ("parameters", if truthy parameters then parameters else hfDefaultParameters)]

/-- `TranscriberService.text_to_generic`.  Defaults: `model="default"`,
`additional_params=None`.  `now` stands for `datetime.utcnow().isoformat()`.
A truthy non-dict `additional_params` makes `payload.update` raise, modelled
as `Except.error`. -/
def text_to_generic (text : String) (model additional_params : PyVal) (now : String) :
    Except String PyVal :=
  let payload := [("model", model), ("input", PyVal.str text),
                  ("timestamp", PyVal.str now)]
  if truthy additional_params then
    match additional_params with
    | .dict kvs => .ok (.dict (dictUpdate payload kvs))
    | _ => .error "TypeError: additional_params is not a mapping"
  else .ok (.dict payload)

/-- Tail of `", ".join(...)`: each further element preceded by `", "`. -/
def joinCommaAux : List String → String
  | [] => ""
  | s :: rest => ", " ++ s ++ joinCommaAux rest

/-- Python's `", ".join(...)`, written structurally. -/
def joinComma : List String → String
  | [] => ""
  | s :: rest => s ++ joinCommaAux rest

/-- The message of the `ValueError` raised by `convert` on an unknown
provider (the f-string of `transcriber_service.py`, after lowercasing). -/
def unsupportedMessage (provider : String) : String :=
  "Unsupported provider: " ++ provider ++ ". Supported providers: " ++
    joinComma SUPPORTED_PROVIDERS

/-- The parameter names of each provider's builder signature (after the
positional `text`); binding `**kwargs` against the builder fails on any other
keyword. -/
def builderParams : String → List String
  | "openai" => ["model", "system_message", "temperature", "max_tokens"]
  | "anthropic" => ["model", "system_message", "temperature", "max_tokens"]
  | "ollama" => ["model", "system_message", "stream"]
  | "google" => ["model", "system_message", "temperature", "max_tokens"]
  | "cohere" => ["model", "system_message", "temperature", "max_tokens"]
  | "huggingface" => ["model", "parameters"]
  | _ => ["model", "additional_params"]

/-- The message of the `TypeError` Python raises when `**kwargs` holds a key
that is not a parameter of the selected builder. -/
def kwErrorMessage (provider key : String) : String :=
  "text_to_" ++ provider ++ "() got an unexpected keyword argument: " ++ key

/-- Binding `**kwargs` against a builder signature: succeeds iff every keyword
is a parameter name; otherwise a `TypeError` naming the first offending key. -/
def checkKw (provider : String) (kwargs : List (String × PyVal)) : Except String Unit :=
  match kwargs.find? (fun kv => !(builderParams provider).contains kv.1) with
  | Option.some kv => .error (kwErrorMessage provider kv.1)
  | Option.none => .ok ()

/-- `TranscriberService.convert`: lowercase the provider, reject anything
outside `SUPPORTED_PROVIDERS`, then dispatch to the matching builder with the
caller's keyword options (builder defaults filled in from the signatures). -/
def convert (now text provider : String) (kwargs : List (String × PyVal)) :
    Except String PyVal :=
  let p := pyLower provider
  if ¬ (SUPPORTED_PROVIDERS.contains p) then .error (unsupportedMessage p)
  else if p = "openai" then
    match checkKw "openai" kwargs with
    | .error e => .error e
    | .ok _ => .ok (text_to_openai text (getKw kwargs "model" (.str "gpt-4"))
        (getKw kwargs "system_message" .none) (getKw kwargs "temperature" (.float 7 1))
        (getKw kwargs "max_tokens" .none))
  else if p = "anthropic" then
    match checkKw "anthropic" kwargs with
    | .error e => .error e
    | .ok _ => .ok (text_to_anthropic text
        (getKw kwargs "model" (.str "claude-3-5-sonnet-20241022"))
        (getKw kwargs "system_message" .none) (getKw kwargs "temperature" (.float 10 1))
        (getKw kwargs "max_tokens" (.int 1024)))
  else if p = "ollama" then
    match checkKw "ollama" kwargs with
    | .error e => .error e
    | .ok _ => .ok (text_to_ollama text (getKw kwargs "model" (.str "llama2"))
        (getKw kwargs "system_message" .none) (getKw kwargs "stream" (.bool false)))
  else if p = "google" then
    match checkKw "google" kwargs with
    | .error e => .error e
    | .ok _ => .ok (text_to_google text (getKw kwargs "model" (.str "gemini-pro"))
        (getKw kwargs "system_message" .none) (getKw kwargs "temperature" (.float 7 1))
        (getKw kwargs "max_tokens" .none))
  else if p = "cohere" then
    match checkKw "cohere" kwargs with
    | .error e => .error e
    | .ok _ => .ok (text_to_cohere text (getKw kwargs "model" (.str "command"))
        (getKw kwargs "system_message" .none) (getKw kwargs "temperature" (.float 7 1))
        (getKw kwargs "max_tokens" .none))
  else if p = "huggingface" then
    match checkKw "huggingface" kwargs with
    | .error e => .error e
    | .ok _ => .ok (text_to_huggingface text (getKw kwargs "model" (.str "gpt2"))
        (getKw kwargs "parameters" .none))
  else
    match checkKw "generic" kwargs with
    | .error e => .error e
    | .ok _ => text_to_generic text (getKw kwargs "model" (.str "default"))
        (getKw kwargs "additional_params" .none) now

/-- The value stored for one provider by `convert_batch`: the payload on
success, `{"error": str(e)}` when `convert` raised. -/
def batchItem (now text provider : String) (kwargs : List (String × PyVal)) : PyVal :=
  match convert now text provider kwargs with
  | .ok v => v
  | .error e => .dict [("error", .str e)]

/-- `TranscriberService.convert_batch`: one `convert` per requested provider,
every exception absorbed into that provider's `{"error": ...}` entry. -/
def convert_batch (now text : String) (providers : List String)
    (kwargs : List (String × PyVal)) : List (String × PyVal) :=
  providers.foldl (fun results p => setKey results p (batchItem now text p kwargs)) []

end TranscriberService

/-!
## JSON text: `json.dumps(payload, indent=..., ensure_ascii=False)` and a reader

`format_json` pretty-prints a payload the way `json.dumps` does with an
`indent` level: every non-empty container opens with a newline, items are
indented `indent` spaces per nesting level and separated by `",\n"`, keys are
separated from values by `": "`, and the closing bracket returns to the
enclosing level's indentation.  `ensure_ascii=False` leaves every character
from space upwards (except `"` and `\`) literally in place; the named control
escapes `\b \t \n \f \r` are used and remaining control characters become
`\u00XX`.

`json_loads` is a recursive-descent reader for the produced grammar (numbers
without exponents, which the printer never emits), modelling `json.loads` far
enough to state the round-trip property.
-/

/-- The decimal digit character for `n < 10`. -/
def digitChar (n : Nat) : Char := Char.ofNat (48 + n)

/-- Lowercase hexadecimal digit character for `n < 16`. -/
def hexChar (n : Nat) : Char :=
  if n < 10 then Char.ofNat (48 + n) else Char.ofNat (87 + n)

/-- Decimal digits of `n`, most significant first. -/
def natDigits (n : Nat) : List Char :=
  if _h : n < 10 then [digitChar n]
  else natDigits (n / 10) ++ [digitChar (n % 10)]
termination_by n
decreasing_by exact Nat.div_lt_self (by omega) (by omega)

/-- How `json.dumps(..., ensure_ascii=False)` writes one character inside a
string literal. -/
def escChar (c : Char) : List Char :=
  if c = '"' then ['\\', '"']
  else if c = '\\' then ['\\', '\\']
  else if c = '\n' then ['\\', 'n']
  else if c = '\t' then ['\\', 't']
  else if c = '\r' then ['\\', 'r']
  else if c.toNat = 8 then ['\\', 'b']
  else if c.toNat = 12 then ['\\', 'f']
  else if c.toNat < 32 then
    ['\\', 'u', '0', '0', hexChar (c.toNat / 16), hexChar (c.toNat % 16)]
  else [c]

/-- A whole string body, escaped. -/
def escList : List Char → List Char
  | [] => []
  | c :: cs => escChar c ++ escList cs

/-- How `json.dumps` writes a Python `int`. -/
def intChars (n : Int) : List Char :=
  (if n < 0 then ['-'] else []) ++ natDigits n.natAbs

/-- The `e` digits after the decimal point for fractional part `k < 10 ^ e`. -/
def fracDigits (k e : Nat) : List Char :=
  List.replicate (e - (natDigits k).length) '0' ++ natDigits k

/-- How `json.dumps` writes the float `m / 10 ^ e` (its full decimal
expansion, as `repr` does for the short constants the converter uses). -/
def floatChars (m : Int) (e : Nat) : List Char :=
  (if m < 0 then ['-'] else []) ++
    natDigits (m.natAbs / 10 ^ e) ++ '.' :: fracDigits (m.natAbs % 10 ^ e) e

/-- `n` spaces of indentation. -/
def pad (n : Nat) : List Char := List.replicate n ' '

mutual

/-- `json.dumps(v, indent=ind)` at nesting level `lvl`, as characters. -/
def dumpVal : PyVal → Nat → Nat → List Char
  | .none, _, _ => ['n', 'u', 'l', 'l']
  | .bool true, _, _ => ['t', 'r', 'u', 'e']
  | .bool false, _, _ => ['f', 'a', 'l', 's', 'e']
  | .int n, _, _ => intChars n
  | .float m e, _, _ => floatChars m e
  | .str s, _, _ => '"' :: (escList s.data ++ ['"'])
  | .list [], _, _ => ['[', ']']
  | .list (x :: xs), ind, lvl =>
      '[' :: '\n' :: (dumpListItems (x :: xs) ind (lvl + 1) ++
        '\n' :: (pad (ind * lvl) ++ [']']))
  | .dict [], _, _ => ['\x7b', '\x7d']
  | .dict (kv :: kvs), ind, lvl =>
      '\x7b' :: '\n' :: (dumpDictItems (kv :: kvs) ind (lvl + 1) ++
        '\n' :: (pad (ind * lvl) ++ ['\x7d']))

/-- The comma-and-newline separated items of a non-empty array. -/
def dumpListItems : List PyVal → Nat → Nat → List Char
  | [], _, _ => []
  | [x], ind, lvl => pad (ind * lvl) ++ dumpVal x ind lvl
  | x :: y :: xs, ind, lvl =>
      pad (ind * lvl) ++ (dumpVal x ind lvl ++
        ',' :: '\n' :: dumpListItems (y :: xs) ind lvl)

/-- The comma-and-newline separated `"key": value` items of a non-empty
object. -/
def dumpDictItems : List (String × PyVal) → Nat → Nat → List Char
  | [], _, _ => []
  | [(k, v)], ind, lvl =>
      pad (ind * lvl) ++ ('"' :: (escList k.data ++ '"' :: ':' :: ' ' ::
        dumpVal v ind lvl))
  | (k, v) :: kv :: kvs, ind, lvl =>
      pad (ind * lvl) ++ ('"' :: (escList k.data ++ '"' :: ':' :: ' ' ::
        (dumpVal v ind lvl ++ ',' :: '\n' :: dumpDictItems (kv :: kvs) ind lvl)))

end

/-- `TranscriberService.format_json`: `json.dumps(data, indent=indent,
ensure_ascii=False)` (the service calls it with the default `indent=2`). -/
def TranscriberService.format_json (data : PyVal) (indent : Nat) : String :=
  String.mk (dumpVal data indent 0)

/-- Drop JSON whitespace. -/
def skipWs : List Char → List Char
  | c :: cs =>
      if c = ' ' ∨ c = '\n' ∨ c = '\t' ∨ c = '\r' then skipWs cs else c :: cs
  | [] => []

/-- Numeric value of a list of decimal digit characters. -/
def digitsToNat (ds : List Char) : Nat :=
  ds.foldl (fun a c => a * 10 + (c.toNat - 48)) 0

/-- Numeric value of a hexadecimal digit character. -/
def hexVal (c : Char) : Nat :=
  if c.toNat ≤ 57 then c.toNat - 48
  else if c.toNat ≤ 70 then c.toNat - 55
  else c.toNat - 87

/-- Hexadecimal digit characters. -/
def isHex (c : Char) : Bool :=
  c.isDigit || (97 ≤ c.toNat && c.toNat ≤ 102) || (65 ≤ c.toNat && c.toNat ≤ 70)

/-- Negation, as `json.loads` applies a leading minus sign. -/
def pyNeg : PyVal → PyVal
  | .int n => .int (-n)
  | .float m e => .float (-m) e
  | v => v

/-- Read an unsigned JSON number (integer or decimal fraction). -/
def parseUNumber (s : List Char) : Option (PyVal × List Char) :=
  let ds := s.takeWhile Char.isDigit
  if ds = [] then Option.none
  else
    let s2 := s.dropWhile Char.isDigit
    if s2.head? = Option.some '.' then
      let s3 := s2.tail
      let fs := s3.takeWhile Char.isDigit
      if fs = [] then Option.none
      else Option.some (.float (digitsToNat ds * 10 ^ fs.length + digitsToNat fs)
        fs.length, s3.dropWhile Char.isDigit)
    else Option.some (.int (digitsToNat ds), s2)

/-- Read a JSON number with its optional sign. -/
def parseNumber : List Char → Option (PyVal × List Char)
  | '-' :: t => (parseUNumber t).map (fun p => (pyNeg p.1, p.2))
  | s => parseUNumber s

/-- Read a JSON string body after the opening quote, undoing `escChar`. -/
def parseStrBody : List Char → Option (List Char × List Char)
  | [] => Option.none
  | c :: cs =>
    if c = '"' then Option.some ([], cs)
    else if c = '\\' then
      match cs with
      | [] => Option.none
      | e :: cs2 =>
        if e = '"' then (parseStrBody cs2).map (fun p => ('"' :: p.1, p.2))
        else if e = '\\' then (parseStrBody cs2).map (fun p => ('\\' :: p.1, p.2))
        else if e = '/' then (parseStrBody cs2).map (fun p => ('/' :: p.1, p.2))
        else if e = 'n' then (parseStrBody cs2).map (fun p => ('\n' :: p.1, p.2))
        else if e = 't' then (parseStrBody cs2).map (fun p => ('\t' :: p.1, p.2))
        else if e = 'r' then (parseStrBody cs2).map (fun p => ('\r' :: p.1, p.2))
        else if e = 'b' then
          (parseStrBody cs2).map (fun p => (Char.ofNat 8 :: p.1, p.2))
        else if e = 'f' then
          (parseStrBody cs2).map (fun p => (Char.ofNat 12 :: p.1, p.2))
        else if e = 'u' then
          match cs2 with
          | h1 :: h2 :: h3 :: h4 :: cs3 =>
            if isHex h1 && isHex h2 && isHex h3 && isHex h4 then
              (parseStrBody cs3).map (fun p =>
                (Char.ofNat (((hexVal h1 * 16 + hexVal h2) * 16 + hexVal h3) * 16 +
                  hexVal h4) :: p.1, p.2))
            else Option.none
          | _ => Option.none
        else Option.none
    else if c.toNat < 32 then Option.none
    else (parseStrBody cs).map (fun p => (c :: p.1, p.2))
termination_by s => s.length
decreasing_by all_goals simp_wf <;> omega

mutual

/-- Read one JSON value (leading whitespace allowed). -/
def parseVal : Nat → List Char → Option (PyVal × List Char)
  | 0, _ => Option.none
  | fuel + 1, s =>
    match skipWs s with
    | [] => Option.none
    | c :: r =>
      if c = '"' then (parseStrBody r).map (fun p => (.str (String.mk p.1), p.2))
      else if c = '\x7b' then
        match skipWs r with
        | '\x7d' :: r2 => Option.some (.dict [], r2)
        | _ => (parseObjItems fuel r).map (fun p => (.dict p.1, p.2))
      else if c = '[' then
        match skipWs r with
        | ']' :: r2 => Option.some (.list [], r2)
        | _ => (parseListItems fuel r).map (fun p => (.list p.1, p.2))
      else if c = 'n' then
        if r.take 3 = ['u', 'l', 'l'] then Option.some (.none, r.drop 3) else Option.none
      else if c = 't' then
        if r.take 3 = ['r', 'u', 'e'] then Option.some (.bool true, r.drop 3)
        else Option.none
      else if c = 'f' then
        if r.take 4 = ['a', 'l', 's', 'e'] then Option.some (.bool false, r.drop 4)
        else Option.none
      else parseNumber (c :: r)

/-- Read the items of a non-empty JSON array, consuming the closing `]`. -/
def parseListItems : Nat → List Char → Option (List PyVal × List Char)
  | 0, _ => Option.none
  | fuel + 1, s =>
    match parseVal fuel s with
    | Option.none => Option.none
    | Option.some (v, r) =>
      match skipWs r with
      | ',' :: r2 => (parseListItems fuel r2).map (fun p => (v :: p.1, p.2))
      | ']' :: r2 => Option.some ([v], r2)
      | _ => Option.none

/-- Read the `"key": value` items of a non-empty JSON object, consuming the
closing brace. -/
def parseObjItems : Nat → List Char → Option (List (String × PyVal) × List Char)
  | 0, _ => Option.none
  | fuel + 1, s =>
    match skipWs s with
    | '"' :: r =>
      match parseStrBody r with
      | Option.none => Option.none
      | Option.some (kcs, r2) =>
        match skipWs r2 with
        | ':' :: r3 =>
          match parseVal fuel r3 with
          | Option.none => Option.none
          | Option.some (v, r4) =>
            match skipWs r4 with
            | ',' :: r5 =>
              (parseObjItems fuel r5).map (fun p =>
                ((String.mk kcs, v) :: p.1, p.2))
            | '\x7d' :: r5 => Option.some ([(String.mk kcs, v)], r5)
            | _ => Option.none
        | _ => Option.none
    | _ => Option.none

end

/-- A model of `json.loads`: read one value, allow trailing whitespace only. -/
def json_loads (s : String) : Option PyVal :=
  match parseVal (s.data.length + 1) s.data with
  | Option.some (v, rest) => if skipWs rest = [] then Option.some v else Option.none
  | Option.none => Option.none

mutual

/-- Values whose printed form reads back unchanged: floats must carry at
least one digit after the decimal point (`e ≥ 1`), as every Python float
prints. -/
def serOk : PyVal → Bool
  | .none => true
  | .bool _ => true
  | .int _ => true
  | .float _ e => decide (1 ≤ e)
  | .str _ => true
  | .list xs => serOkList xs
  | .dict kvs => serOkDict kvs

/-- `serOk` for every element of a list. -/
def serOkList : List PyVal → Bool
  | [] => true
  | x :: xs => serOk x && serOkList xs

/-- `serOk` for every value of an object. -/
def serOkDict : List (String × PyVal) → Bool
  | [] => true
  | (_, v) :: kvs => serOk v && serOkDict kvs

end

mutual

/-- Enough `parseVal` fuel to read the printed form of a value. -/
def fuelVal : PyVal → Nat
  | .list xs => 1 + fuelList xs
  | .dict kvs => 1 + fuelDict kvs
  | _ => 1

/-- Fuel for the items of an array. -/
def fuelList : List PyVal → Nat
  | [] => 0
  | x :: xs => 1 + fuelVal x + fuelList xs

/-- Fuel for the items of an object. -/
def fuelDict : List (String × PyVal) → Nat
  | [] => 0
  | (_, v) :: kvs => 1 + fuelVal v + fuelDict kvs

end

/-- Rests a printed value may be followed by without changing how it reads:
end of input or a separator/closer (never a digit, dot or letter). -/
def delimB : List Char → Bool
  | [] => true
  | c :: _ => c = ',' ∨ c = '\n' ∨ c = ']' ∨ c = '\x7d'

/-!
## Association-list lemmas
-/

theorem lookupKey_setKey (d : List (String × PyVal)) (k key : String) (v : PyVal) :
    lookupKey (setKey d k v) key =
      if k = key then Option.some v else lookupKey d key := by
  induction d with
  | nil => simp [setKey, lookupKey]
  | cons kv rest ih =>
    obtain ⟨k', v'⟩ := kv
    by_cases h1 : k' = k
    · subst h1
      by_cases h2 : k' = key
      · subst h2; simp [setKey, lookupKey]
      · simp [setKey, lookupKey, h2]
    · by_cases h2 : k' = key
      · have h3 : ¬ k = key := fun h => h1 (h2.trans h.symm)
        have h4 : ¬ key = k := fun h => h3 h.symm
        simp [setKey, lookupKey, h1, h2, h3, h4]
      · simp [setKey, lookupKey, h1, h2, ih]

theorem lookupKey_batch_foldl (now text : String) (kwargs : List (String × PyVal))
    (providers : List String) (acc : List (String × PyVal)) (key : String) :
    lookupKey (providers.foldl
        (fun results p => setKey results p (TranscriberService.batchItem now text p kwargs))
        acc) key =
      if key ∈ providers then Option.some (TranscriberService.batchItem now text key kwargs)
      else lookupKey acc key := by
  induction providers generalizing acc with
  | nil => simp
  | cons p rest ih =>
    simp only [List.foldl_cons, ih, lookupKey_setKey, List.mem_cons]
    by_cases hk : key = p
    · subst hk
      by_cases h2 : key ∈ rest <;> simp [h2]
    · have hk2 : ¬ p = key := fun h => hk h.symm
      by_cases h2 : key ∈ rest <;> simp [h2, hk, hk2]

/-!
## The claims
-/

/-- C1: for every provider in the canonical set, `convert` with no extra
options succeeds and returns exactly the payload of the spec's §4.1 table
(keys, order and default values). -/
theorem convert_default_payloads (now text : String) :
    TranscriberService.convert now text "openai" [] =
      .ok (.dict [("model", .str "gpt-4"),
        ("messages", .list [.dict [("role", .str "user"), ("content", .str text)]]),
        ("temperature", .float 7 1)]) ∧
    TranscriberService.convert now text "anthropic" [] =
      .ok (.dict [("model", .str "claude-3-5-sonnet-20241022"),
        ("max_tokens", .int 1024), ("temperature", .float 10 1),
        ("messages", .list [.dict [("role", .str "user"), ("content", .str text)]])]) ∧
    TranscriberService.convert now text "ollama" [] =
      .ok (.dict [("model", .str "llama2"), ("prompt", .str text),
        ("stream", .bool false)]) ∧
    TranscriberService.convert now text "google" [] =
      .ok (.dict [("contents", .list [.dict [("role", .str "user"),
          ("parts", .list [.dict [("text", .str text)]])]]),
        ("generationConfig", .dict [("temperature", .float 7 1)])]) ∧
    TranscriberService.convert now text "cohere" [] =
      .ok (.dict [("model", .str "command"), ("message", .str text),
        ("temperature", .float 7 1)]) ∧
    TranscriberService.convert now text "huggingface" [] =
      .ok (.dict [("inputs", .str text),
        ("parameters", .dict [("max_new_tokens", .int 250), ("temperature", .float 7 1),
          ("return_full_text", .bool false)])]) ∧
    TranscriberService.convert now text "generic" [] =
      .ok (.dict [("model", .str "default"), ("input", .str text),
        ("timestamp", .str now)]) :=
  ⟨rfl, rfl, rfl, rfl, rfl, rfl, rfl⟩

/-- The unsupported-provider message spelled out: it enumerates all seven
canonical provider names after the rejected one. -/
theorem unsupportedMessage_spelled (p : String) :
    TranscriberService.unsupportedMessage p =
      ("Unsupported provider: " ++ p) ++
        (". Supported providers: openai, anthropic, ollama, google, cohere, huggingface, generic") := by
  rw [TranscriberService.unsupportedMessage, String.append_assoc]
  exact congrArg _ rfl

/-- C2: a provider whose lowercased form is outside the fixed seven-element
set makes `convert` fail with the unsupported-provider error, whose message
enumerates all seven canonical names; a provider whose lowercased form is in
the set is dispatched (case-insensitively) to its builder, which succeeds
with no extra options. -/
theorem convert_provider_dispatch (now text provider : String)
    (kwargs : List (String × PyVal)) :
    (pyLower provider ∉ TranscriberService.SUPPORTED_PROVIDERS →
      TranscriberService.convert now text provider kwargs =
        .error (TranscriberService.unsupportedMessage (pyLower provider)) ∧
      TranscriberService.unsupportedMessage (pyLower provider) =
        ("Unsupported provider: " ++ pyLower provider) ++
          (". Supported providers: openai, anthropic, ollama, google, cohere, huggingface, generic")) ∧
    (pyLower provider ∈ TranscriberService.SUPPORTED_PROVIDERS →
      ∃ v, TranscriberService.convert now text provider [] = Except.ok v) := by
  constructor
  · intro h
    have hc : TranscriberService.SUPPORTED_PROVIDERS.contains (pyLower provider) = false := by
      simpa using h
    refine ⟨?_, unsupportedMessage_spelled _⟩
    simp only [TranscriberService.convert, hc, Bool.false_eq_true, not_false_eq_true, if_true]
  · intro h
    have h7 : pyLower provider = "openai" ∨ pyLower provider = "anthropic" ∨
        pyLower provider = "ollama" ∨ pyLower provider = "google" ∨
        pyLower provider = "cohere" ∨ pyLower provider = "huggingface" ∨
        pyLower provider = "generic" := by
      simpa [TranscriberService.SUPPORTED_PROVIDERS] using h
    rcases h7 with hp | hp | hp | hp | hp | hp | hp <;>
      · simp only [TranscriberService.convert, hp]
        exact ⟨_, rfl⟩

/-- Witness for C2 at concrete inputs: an unknown provider is rejected with
the enumerating message, a known provider (case-insensitively) succeeds. -/
theorem convert_provider_dispatch_witness :
    TranscriberService.convert "t" "x" "does-not-exist" [] =
        .error (TranscriberService.unsupportedMessage (pyLower "does-not-exist")) ∧
    ∃ v, TranscriberService.convert "t" "x" "OpenAI" [] = Except.ok v :=
  ⟨((convert_provider_dispatch "t" "x" "does-not-exist" []).1 (by decide)).1,
   (convert_provider_dispatch "t" "x" "OpenAI" []).2 (by decide)⟩

/-- C3: `convert_batch` returns one entry per requested provider — exactly
the requested key set — and each provider's entry depends only on that
provider's own `convert` outcome: a payload on success, `{"error": message}`
on failure, so one provider's failure never suppresses or alters the
others. -/
theorem convert_batch_partial_isolation (now text : String) (providers : List String)
    (kwargs : List (String × PyVal)) :
    (∀ p, (lookupKey (TranscriberService.convert_batch now text providers kwargs) p).isSome
        ↔ p ∈ providers) ∧
    (∀ p ∈ providers, ∀ v, TranscriberService.convert now text p kwargs = .ok v →
      lookupKey (TranscriberService.convert_batch now text providers kwargs) p =
        Option.some v) ∧
    (∀ p ∈ providers, ∀ e, TranscriberService.convert now text p kwargs = .error e →
      lookupKey (TranscriberService.convert_batch now text providers kwargs) p =
        Option.some (.dict [("error", .str e)])) := by
  refine ⟨fun p => ?_, fun p hp v hv => ?_, fun p hp e he => ?_⟩
  · rw [TranscriberService.convert_batch, lookupKey_batch_foldl]
    by_cases h : p ∈ providers <;> simp [h, lookupKey]
  · rw [TranscriberService.convert_batch, lookupKey_batch_foldl, if_pos hp]
    simp [TranscriberService.batchItem, hv]
  · rw [TranscriberService.convert_batch, lookupKey_batch_foldl, if_pos hp]
    simp [TranscriberService.batchItem, he]

/-- Witness for C3: in the batch `["openai", "bogus", "anthropic"]` the
invalid provider maps to an error entry while a valid sibling keeps its
payload. -/
theorem convert_batch_partial_isolation_witness :
    lookupKey (TranscriberService.convert_batch "t" "hi" ["openai", "bogus", "anthropic"] [])
        "bogus" =
      Option.some (PyVal.dict
        [("error", .str (TranscriberService.unsupportedMessage "bogus"))]) ∧
    lookupKey (TranscriberService.convert_batch "t" "hi" ["openai", "bogus", "anthropic"] [])
        "anthropic" =
      Option.some (PyVal.dict [("model", .str "claude-3-5-sonnet-20241022"),
        ("max_tokens", .int 1024), ("temperature", .float 10 1),
        ("messages", .list [.dict [("role", .str "user"), ("content", .str "hi")]])]) :=
  ⟨(convert_batch_partial_isolation "t" "hi" ["openai", "bogus", "anthropic"] []).2.2
      "bogus" (by simp) (TranscriberService.unsupportedMessage "bogus") rfl,
   (convert_batch_partial_isolation "t" "hi" ["openai", "bogus", "anthropic"] []).2.1
      "anthropic" (by simp) _ rfl⟩

/-!
## Dispatch bridges: `convert` on each literal provider name

Each lemma is definitional (`rfl`): it exposes the keyword check and the
builder call that `convert` performs for that provider.
-/

theorem convert_openai_eq (now text : String) (kwargs : List (String × PyVal)) :
    TranscriberService.convert now text "openai" kwargs =
      match TranscriberService.checkKw "openai" kwargs with
      | .error e => .error e
      | .ok _ => .ok (TranscriberService.text_to_openai text
          (getKw kwargs "model" (.str "gpt-4")) (getKw kwargs "system_message" .none)
          (getKw kwargs "temperature" (.float 7 1)) (getKw kwargs "max_tokens" .none)) := rfl

theorem convert_anthropic_eq (now text : String) (kwargs : List (String × PyVal)) :
    TranscriberService.convert now text "anthropic" kwargs =
      match TranscriberService.checkKw "anthropic" kwargs with
      | .error e => .error e
      | .ok _ => .ok (TranscriberService.text_to_anthropic text
          (getKw kwargs "model" (.str "claude-3-5-sonnet-20241022"))
          (getKw kwargs "system_message" .none) (getKw kwargs "temperature" (.float 10 1))
          (getKw kwargs "max_tokens" (.int 1024))) := rfl

theorem convert_ollama_eq (now text : String) (kwargs : List (String × PyVal)) :
    TranscriberService.convert now text "ollama" kwargs =
      match TranscriberService.checkKw "ollama" kwargs with
      | .error e => .error e
      | .ok _ => .ok (TranscriberService.text_to_ollama text
          (getKw kwargs "model" (.str "llama2")) (getKw kwargs "system_message" .none)
          (getKw kwargs "stream" (.bool false))) := rfl

theorem convert_google_eq (now text : String) (kwargs : List (String × PyVal)) :
    TranscriberService.convert now text "google" kwargs =
      match TranscriberService.checkKw "google" kwargs with
      | .error e => .error e
      | .ok _ => .ok (TranscriberService.text_to_google text
          (getKw kwargs "model" (.str "gemini-pro")) (getKw kwargs "system_message" .none)
          (getKw kwargs "temperature" (.float 7 1)) (getKw kwargs "max_tokens" .none)) := rfl

theorem convert_cohere_eq (now text : String) (kwargs : List (String × PyVal)) :
    TranscriberService.convert now text "cohere" kwargs =
      match TranscriberService.checkKw "cohere" kwargs with
      | .error e => .error e
      | .ok _ => .ok (TranscriberService.text_to_cohere text
          (getKw kwargs "model" (.str "command")) (getKw kwargs "system_message" .none)
          (getKw kwargs "temperature" (.float 7 1)) (getKw kwargs "max_tokens" .none)) := rfl

theorem convert_huggingface_eq (now text : String) (kwargs : List (String × PyVal)) :
    TranscriberService.convert now text "huggingface" kwargs =
      match TranscriberService.checkKw "huggingface" kwargs with
      | .error e => .error e
      | .ok _ => .ok (TranscriberService.text_to_huggingface text
          (getKw kwargs "model" (.str "gpt2")) (getKw kwargs "parameters" .none)) := rfl

theorem convert_generic_eq (now text : String) (kwargs : List (String × PyVal)) :
    TranscriberService.convert now text "generic" kwargs =
      match TranscriberService.checkKw "generic" kwargs with
      | .error e => .error e
      | .ok _ => TranscriberService.text_to_generic text
          (getKw kwargs "model" (.str "default"))
          (getKw kwargs "additional_params" .none) now := rfl

/-- C5 counterexample: an option key no builder parameter matches does NOT
get ignored — `convert` fails (Python raises `TypeError` when `**kwargs` is
bound against the builder's signature). -/
theorem convert_unknown_option_not_ignored :
    TranscriberService.convert "t" "hi" "openai" [("extra_option", PyVal.int 1)] =
      .error (TranscriberService.kwErrorMessage "openai" "extra_option") := rfl

/-- C5 (amended): for every supported provider, a keyword option that is not
one of that builder's parameter names makes `convert` fail with an
unexpected-keyword-argument error (it is not ignored, no payload is built). -/
theorem convert_unknown_option_raises (now text k : String) (v : PyVal) (p : String)
    (hp : p ∈ TranscriberService.SUPPORTED_PROVIDERS)
    (hk : k ∉ TranscriberService.builderParams p) :
    TranscriberService.convert now text p [(k, v)] =
      .error (TranscriberService.kwErrorMessage p k) := by
  simp only [TranscriberService.SUPPORTED_PROVIDERS, List.mem_cons,
    List.not_mem_nil, or_false] at hp
  rcases hp with rfl | rfl | rfl | rfl | rfl | rfl | rfl <;>
    [rw [convert_openai_eq]; rw [convert_anthropic_eq]; rw [convert_ollama_eq];
     rw [convert_google_eq]; rw [convert_cohere_eq]; rw [convert_huggingface_eq];
     rw [convert_generic_eq]] <;>
    simp [TranscriberService.checkKw, hk]

/-- Witness for C5 (amended) at a concrete unknown option. -/
theorem convert_unknown_option_raises_witness :
    TranscriberService.convert "t" "hi" "cohere" [("foo", PyVal.int 5)] =
      .error (TranscriberService.kwErrorMessage "cohere" "foo") :=
  convert_unknown_option_raises "t" "hi" "foo" (PyVal.int 5) "cohere" (by decide) (by decide)

/-- C6 counterexample: supplying the EMPTY mapping as `parameters` for
huggingface does not replace the default block — the empty dict is falsy, so
the payload keeps the defaults, which differ from the supplied mapping. -/
theorem hf_empty_parameters_not_replaced :
    TranscriberService.convert "t" "hi" "huggingface" [("parameters", PyVal.dict [])] =
      .ok (.dict [("inputs", .str "hi"),
        ("parameters", TranscriberService.hfDefaultParameters)]) ∧
    TranscriberService.hfDefaultParameters ≠ PyVal.dict [] :=
  ⟨rfl, by simp [TranscriberService.hfDefaultParameters]⟩

/-- C6 (amended): a NON-EMPTY mapping supplied as `parameters` fully replaces
the default block (no merging); omitting `parameters` — or supplying the
empty, falsy mapping — yields the default block
`{max_new_tokens: 250, temperature: 0.7, return_full_text: false}`. -/
theorem hf_parameters_replacement (now text : String) (kvs : List (String × PyVal))
    (hne : kvs ≠ []) :
    TranscriberService.convert now text "huggingface" [("parameters", PyVal.dict kvs)] =
      .ok (.dict [("inputs", .str text), ("parameters", .dict kvs)]) ∧
    TranscriberService.convert now text "huggingface" [] =
      .ok (.dict [("inputs", .str text),
        ("parameters", TranscriberService.hfDefaultParameters)]) ∧
    TranscriberService.convert now text "huggingface" [("parameters", PyVal.dict [])] =
      .ok (.dict [("inputs", .str text),
        ("parameters", TranscriberService.hfDefaultParameters)]) := by
  refine ⟨?_, rfl, rfl⟩
  obtain ⟨kv, rest, rfl⟩ := List.exists_cons_of_ne_nil hne
  rfl

/-- Witness for C6 (amended) at a concrete non-empty `parameters` mapping. -/
theorem hf_parameters_replacement_witness :
    TranscriberService.convert "t" "hi" "huggingface"
        [("parameters", PyVal.dict [("top_k", PyVal.int 3)])] =
      .ok (.dict [("inputs", .str "hi"),
        ("parameters", .dict [("top_k", PyVal.int 3)])]) :=
  (hf_parameters_replacement "t" "hi" [("top_k", PyVal.int 3)] (by simp)).1

/-- C7: `max_tokens` (and cohere's `max_tokens`, google's
`generationConfig.maxOutputTokens`) is added iff the supplied value is
truthy: `max_tokens=0` produces a payload identical to omitting the option,
while any positive value appears in the payload. -/
theorem max_tokens_truthiness (now text : String) :
    (TranscriberService.convert now text "openai" [("max_tokens", PyVal.int 0)] =
      TranscriberService.convert now text "openai" []) ∧
    (∀ n : Int, 0 < n →
      TranscriberService.convert now text "openai" [("max_tokens", PyVal.int n)] =
        .ok (.dict [("model", .str "gpt-4"),
          ("messages", .list [.dict [("role", .str "user"), ("content", .str text)]]),
          ("temperature", .float 7 1), ("max_tokens", .int n)])) ∧
    (TranscriberService.convert now text "cohere" [("max_tokens", PyVal.int 0)] =
      TranscriberService.convert now text "cohere" []) ∧
    (∀ n : Int, 0 < n →
      TranscriberService.convert now text "cohere" [("max_tokens", PyVal.int n)] =
        .ok (.dict [("model", .str "command"), ("message", .str text),
          ("temperature", .float 7 1), ("max_tokens", .int n)])) ∧
    (TranscriberService.convert now text "google" [("max_tokens", PyVal.int 0)] =
      TranscriberService.convert now text "google" []) ∧
    (∀ n : Int, 0 < n →
      TranscriberService.convert now text "google" [("max_tokens", PyVal.int n)] =
        .ok (.dict [("contents", .list [.dict [("role", .str "user"),
            ("parts", .list [.dict [("text", .str text)]])]]),
          ("generationConfig", .dict [("temperature", .float 7 1),
            ("maxOutputTokens", .int n)])])) := by
  refine ⟨rfl, fun n hn => ?_, rfl, fun n hn => ?_, rfl, fun n hn => ?_⟩ <;>
  · have hz : ¬ n = 0 := by omega
    first
    | (rw [convert_openai_eq]
       have h1 : TranscriberService.checkKw "openai" [("max_tokens", PyVal.int n)] =
           .ok () := rfl
       rw [h1]
       simp [TranscriberService.text_to_openai, truthy, hz, getKw, lookupKey, setKey])
    | (rw [convert_cohere_eq]
       have h1 : TranscriberService.checkKw "cohere" [("max_tokens", PyVal.int n)] =
           .ok () := rfl
       rw [h1]
       simp [TranscriberService.text_to_cohere, truthy, hz, getKw, lookupKey, setKey])
    | (rw [convert_google_eq]
       have h1 : TranscriberService.checkKw "google" [("max_tokens", PyVal.int n)] =
           .ok () := rfl
       rw [h1]
       simp [TranscriberService.text_to_google, truthy, hz, getKw, lookupKey, setKey])

/-- Witness for C7 at `max_tokens = 5`. -/
theorem max_tokens_truthiness_witness :
    TranscriberService.convert "t" "hi" "openai" [("max_tokens", PyVal.int 5)] =
      .ok (.dict [("model", .str "gpt-4"),
        ("messages", .list [.dict [("role", .str "user"), ("content", .str "hi")]]),
        ("temperature", .float 7 1), ("max_tokens", .int 5)]) :=
  (max_tokens_truthiness "t" "hi").2.1 5 (by decide)

/-- C8: for the generic provider, `additional_params` is merged into the
top-level payload after the base fields, overwriting `model`/`input`/
`timestamp` on key collision; in particular `{"model": "override"}` makes the
payload's `model` field `"override"`. -/
theorem generic_additional_params_merge (now text : String)
    (kvs : List (String × PyVal)) :
    TranscriberService.convert now text "generic" [("additional_params", PyVal.dict kvs)] =
      .ok (.dict (dictUpdate [("model", .str "default"), ("input", .str text),
        ("timestamp", .str now)] kvs)) ∧
    TranscriberService.convert now text "generic"
        [("additional_params", PyVal.dict [("model", PyVal.str "override")])] =
      .ok (.dict [("model", .str "override"), ("input", .str text),
        ("timestamp", .str now)]) := by
  constructor
  · cases kvs with
    | nil => rfl
    | cons kv rest => rfl
  · rfl

/-- C9: a non-empty `system_message` for openai yields exactly two messages,
the system one first and the user text second; omitting it yields exactly the
single user message. -/
theorem openai_system_message_shape (now text sys : String) (hs : sys ≠ "") :
    TranscriberService.convert now text "openai" [("system_message", PyVal.str sys)] =
      .ok (.dict [("model", .str "gpt-4"),
        ("messages", .list [.dict [("role", .str "system"), ("content", .str sys)],
          .dict [("role", .str "user"), ("content", .str text)]]),
        ("temperature", .float 7 1)]) ∧
    TranscriberService.convert now text "openai" [] =
      .ok (.dict [("model", .str "gpt-4"),
        ("messages", .list [.dict [("role", .str "user"), ("content", .str text)]]),
        ("temperature", .float 7 1)]) := by
  refine ⟨?_, rfl⟩
  have h1 : TranscriberService.convert now text "openai" [("system_message", PyVal.str sys)] =
      .ok (TranscriberService.text_to_openai text (.str "gpt-4") (.str sys)
        (.float 7 1) .none) := rfl
  rw [h1, TranscriberService.text_to_openai]
  simp [truthy, hs]

/-- Witness for C9 at a concrete system message. -/
theorem openai_system_message_shape_witness :
    TranscriberService.convert "t" "hi" "openai" [("system_message", PyVal.str "sys")] =
      .ok (.dict [("model", .str "gpt-4"),
        ("messages", .list [.dict [("role", .str "system"), ("content", .str "sys")],
          .dict [("role", .str "user"), ("content", .str "hi")]]),
        ("temperature", .float 7 1)]) :=
  (openai_system_message_shape "t" "hi" "sys" (by decide)).1

/-- C10: in every builder that accepts `system_message` (openai, anthropic,
ollama, google, cohere), supplying the empty string behaves exactly as
omitting the option — the presence test is string truthiness, not a
not-None check. -/
theorem empty_system_message_ignored (now text : String) :
    (TranscriberService.convert now text "openai" [("system_message", PyVal.str "")] =
      TranscriberService.convert now text "openai" []) ∧
    (TranscriberService.convert now text "anthropic" [("system_message", PyVal.str "")] =
      TranscriberService.convert now text "anthropic" []) ∧
    (TranscriberService.convert now text "ollama" [("system_message", PyVal.str "")] =
      TranscriberService.convert now text "ollama" []) ∧
    (TranscriberService.convert now text "google" [("system_message", PyVal.str "")] =
      TranscriberService.convert now text "google" []) ∧
    (TranscriberService.convert now text "cohere" [("system_message", PyVal.str "")] =
      TranscriberService.convert now text "cohere" []) :=
  ⟨rfl, rfl, rfl, rfl, rfl⟩

/-!
## Digits: printing and reading decimal numbers agree
-/

theorem digitChar_spec : ∀ n < 10, (digitChar n).isDigit = true ∧
    (digitChar n).toNat = 48 + n := by decide

theorem natDigits_ne_nil (n : Nat) : natDigits n ≠ [] := by
  rw [natDigits]
  split <;> simp

theorem natDigits_digits (n : Nat) : ∀ c ∈ natDigits n, c.isDigit = true := by
  induction n using Nat.strong_induction_on with
  | _ n ih =>
    rw [natDigits]
    split
    · next h =>
      intro c hc
      simp only [List.mem_singleton] at hc
      subst hc
      exact (digitChar_spec n h).1
    · next h =>
      intro c hc
      rw [List.mem_append] at hc
      rcases hc with hc | hc
      · exact ih (n / 10) (Nat.div_lt_self (by omega) (by omega)) c hc
      · simp only [List.mem_singleton] at hc
        subst hc
        exact (digitChar_spec (n % 10) (Nat.mod_lt _ (by omega))).1

theorem digitsToNat_from (ds : List Char) (a : Nat) :
    ds.foldl (fun x c => x * 10 + (c.toNat - 48)) a =
      a * 10 ^ ds.length + digitsToNat ds := by
  induction ds generalizing a with
  | nil => simp [digitsToNat]
  | cons c t ih =>
    simp only [List.foldl_cons, digitsToNat, List.length_cons]
    rw [ih (a * 10 + (c.toNat - 48)), ih (0 * 10 + (c.toNat - 48))]
    ring

theorem digitsToNat_append (xs ys : List Char) :
    digitsToNat (xs ++ ys) = digitsToNat xs * 10 ^ ys.length + digitsToNat ys := by
  rw [digitsToNat, List.foldl_append, digitsToNat_from]
  rfl

theorem digitsToNat_natDigits (n : Nat) : digitsToNat (natDigits n) = n := by
  induction n using Nat.strong_induction_on with
  | _ n ih =>
    rw [natDigits]
    split
    · next h =>
      simp [digitsToNat, (digitChar_spec n h).2]
    · next h =>
      rw [digitsToNat_append, ih (n / 10) (Nat.div_lt_self (by omega) (by omega))]
      simp [digitsToNat, (digitChar_spec (n % 10) (Nat.mod_lt _ (by omega))).2]
      omega

theorem natDigits_length_le (k e : Nat) (he : 1 ≤ e) (hk : k < 10 ^ e) :
    (natDigits k).length ≤ e := by
  induction k using Nat.strong_induction_on generalizing e with
  | _ k ih =>
    rw [natDigits]
    split
    · simpa using he
    · next h =>
      have he2 : 2 ≤ e := by
        by_contra hcon
        have : e = 1 := by omega
        subst this
        simp at hk
        omega
      have hdiv : k / 10 < 10 ^ (e - 1) := by
        rw [Nat.div_lt_iff_lt_mul (by omega)]
        calc k < 10 ^ e := hk
        _ = 10 ^ (e - 1) * 10 := by
          rw [← Nat.pow_succ]
          congr 1
          omega
      have := ih (k / 10) (Nat.div_lt_self (by omega) (by omega)) (e := e - 1)
        (by omega) hdiv
      simp only [List.length_append, List.length_cons, List.length_nil]
      omega

theorem digitsToNat_replicate_zero (z : Nat) (l : List Char) :
    digitsToNat (List.replicate z '0' ++ l) = digitsToNat l := by
  induction z with
  | zero => simp
  | succ z ih => simpa [digitsToNat, List.replicate_succ] using ih

theorem fracDigits_length (k e : Nat) (he : 1 ≤ e) (hk : k < 10 ^ e) :
    (fracDigits k e).length = e := by
  have := natDigits_length_le k e he hk
  simp only [fracDigits, List.length_append, List.length_replicate]
  omega

theorem fracDigits_value (k e : Nat) : digitsToNat (fracDigits k e) = k := by
  rw [fracDigits, digitsToNat_replicate_zero, digitsToNat_natDigits]

theorem fracDigits_digits (k e : Nat) : ∀ c ∈ fracDigits k e, c.isDigit = true := by
  intro c hc
  rw [fracDigits, List.mem_append] at hc
  rcases hc with hc | hc
  · rw [List.eq_of_mem_replicate hc]
    decide
  · exact natDigits_digits k c hc

theorem fracDigits_ne_nil (k e : Nat) : fracDigits k e ≠ [] := by
  rw [fracDigits]
  intro h
  rw [List.append_eq_nil] at h
  exact natDigits_ne_nil k h.2

theorem takeWhile_append_all (p : Char → Bool) (l r : List Char)
    (h : ∀ c ∈ l, p c = true) :
    (l ++ r).takeWhile p = l ++ r.takeWhile p ∧
      (l ++ r).dropWhile p = r.dropWhile p := by
  induction l with
  | nil => simp
  | cons c t ih =>
    have hc := h c (by simp)
    have iht := ih (fun c hc => h c (by simp [hc]))
    simp [List.takeWhile_cons, List.dropWhile_cons, hc, iht.1, iht.2]

theorem delimB_cases (rest : List Char) (h : delimB rest = true) :
    rest = [] ∨ ∃ t, rest = ',' :: t ∨ rest = '\n' :: t ∨ rest = ']' :: t ∨
      rest = '\x7d' :: t := by
  cases rest with
  | nil => exact Or.inl rfl
  | cons c t =>
    refine Or.inr ⟨t, ?_⟩
    simp only [delimB, decide_eq_true_eq] at h
    rcases h with h | h | h | h <;> subst h <;> simp

theorem delimB_stops_digits (rest : List Char) (h : delimB rest = true) :
    rest.takeWhile Char.isDigit = [] ∧ rest.dropWhile Char.isDigit = rest := by
  rcases delimB_cases rest h with rfl | ⟨t, h | h | h | h⟩
  · simp
  all_goals
    subst h
    exact ⟨List.takeWhile_cons_of_neg (by decide),
      List.dropWhile_cons_of_neg (by decide)⟩

theorem parseUNumber_natDigits (a : Nat) (rest : List Char)
    (hrest : delimB rest = true) :
    parseUNumber (natDigits a ++ rest) = Option.some (.int a, rest) := by
  have hstop := delimB_stops_digits rest hrest
  have hsplit := takeWhile_append_all Char.isDigit (natDigits a) rest
    (natDigits_digits a)
  have hval : digitsToNat (natDigits a) = a := digitsToNat_natDigits a
  have hdot : rest.head? ≠ Option.some '.' := by
    rcases delimB_cases rest hrest with rfl | ⟨t, h | h | h | h⟩ <;> subst_eqs <;> simp
  rw [parseUNumber]
  simp only [hsplit.1, hsplit.2, hstop.1, hstop.2, List.append_nil, hval,
    if_neg (natDigits_ne_nil a), if_neg hdot]

theorem parseUNumber_decimal (A e : Nat) (he : 1 ≤ e) (rest : List Char)
    (hrest : delimB rest = true) :
    parseUNumber (natDigits (A / 10 ^ e) ++ '.' ::
        (fracDigits (A % 10 ^ e) e ++ rest)) =
      Option.some (.float (A : Int) e, rest) := by
  have hstop := delimB_stops_digits rest hrest
  have hsplit := takeWhile_append_all Char.isDigit (natDigits (A / 10 ^ e))
    ('.' :: (fracDigits (A % 10 ^ e) e ++ rest)) (natDigits_digits _)
  have hdot1 : ('.' :: (fracDigits (A % 10 ^ e) e ++ rest)).takeWhile Char.isDigit
      = [] := List.takeWhile_cons_of_neg (by decide)
  have hdot2 : ('.' :: (fracDigits (A % 10 ^ e) e ++ rest)).dropWhile Char.isDigit
      = '.' :: (fracDigits (A % 10 ^ e) e ++ rest) :=
    List.dropWhile_cons_of_neg (by decide)
  have hfsplit := takeWhile_append_all Char.isDigit (fracDigits (A % 10 ^ e) e)
    rest (fracDigits_digits _ _)
  have hmod : A % 10 ^ e < 10 ^ e := Nat.mod_lt _ (by positivity)
  have hN : A / 10 ^ e * 10 ^ e + A % 10 ^ e = A := by
    rw [Nat.mul_comm]
    exact Nat.div_add_mod A (10 ^ e)
  have hcast : ((A / 10 ^ e : Nat) : Int) * 10 ^ e + ((A % 10 ^ e : Nat) : Int) =
      (A : Int) := by
    exact_mod_cast hN
  rw [parseUNumber]
  simp only [hsplit.1, hsplit.2, hdot1, hdot2, List.append_nil,
    if_neg (natDigits_ne_nil _), List.head?_cons, List.tail_cons, if_pos rfl,
    hfsplit.1, hfsplit.2, hstop.1, hstop.2, if_neg (fracDigits_ne_nil _ _),
    fracDigits_value, digitsToNat_natDigits, fracDigits_length _ _ he hmod, hcast,
    if_true]

theorem parseNumber_of_head_digit (c : Char) (l : List Char)
    (hc : c.isDigit = true) : parseNumber (c :: l) = parseUNumber (c :: l) := by
  rw [parseNumber.eq_def]
  split
  · next heq =>
    rw [List.cons.injEq] at heq
    rw [heq.1] at hc
    simp at hc
  · rfl

theorem parseNumber_intChars (n : Int) (rest : List Char)
    (hrest : delimB rest = true) :
    parseNumber (intChars n ++ rest) = Option.some (.int n, rest) := by
  rcases Int.lt_or_le n 0 with hn | hn
  · have : intChars n ++ rest = '-' :: (natDigits n.natAbs ++ rest) := by
      simp [intChars, hn]
    rw [this, parseNumber, parseUNumber_natDigits _ _ hrest]
    simp only [Option.map_some']
    have hneg : pyNeg (.int (n.natAbs : Int)) = .int n := by
      show PyVal.int (-(n.natAbs : Int)) = .int n
      congr 1
      omega
    rw [hneg]
  · have hchars : intChars n ++ rest = natDigits n.natAbs ++ rest := by
      simp [intChars, Int.not_lt.mpr hn]
    obtain ⟨c, t, hct⟩ := List.exists_cons_of_ne_nil (natDigits_ne_nil n.natAbs)
    have hcd : c.isDigit = true := natDigits_digits n.natAbs c (by rw [hct]; simp)
    rw [hchars, hct, List.cons_append, parseNumber_of_head_digit c _ hcd,
      ← List.cons_append, ← hct, parseUNumber_natDigits _ _ hrest,
      Int.natAbs_of_nonneg hn]

theorem parseNumber_floatChars (m : Int) (e : Nat) (he : 1 ≤ e)
    (rest : List Char) (hrest : delimB rest = true) :
    parseNumber (floatChars m e ++ rest) = Option.some (.float m e, rest) := by
  rcases Int.lt_or_le m 0 with hm | hm
  · have : floatChars m e ++ rest = '-' :: (natDigits (m.natAbs / 10 ^ e) ++
        '.' :: (fracDigits (m.natAbs % 10 ^ e) e ++ rest)) := by
      simp [floatChars, hm]
    rw [this, parseNumber, parseUNumber_decimal _ _ he _ hrest]
    simp only [Option.map_some']
    have hneg : pyNeg (.float (m.natAbs : Int) e) = .float m e := by
      show PyVal.float (-(m.natAbs : Int)) e = .float m e
      congr 1
      omega
    rw [hneg]
  · have hchars : floatChars m e ++ rest = natDigits (m.natAbs / 10 ^ e) ++
        '.' :: (fracDigits (m.natAbs % 10 ^ e) e ++ rest) := by
      simp [floatChars, Int.not_lt.mpr hm]
    obtain ⟨c, t, hct⟩ :=
      List.exists_cons_of_ne_nil (natDigits_ne_nil (m.natAbs / 10 ^ e))
    have hcd : c.isDigit = true := natDigits_digits _ c (by rw [hct]; simp)
    rw [hchars, hct, List.cons_append, parseNumber_of_head_digit c _ hcd,
      ← List.cons_append, ← hct, parseUNumber_decimal _ _ he _ hrest,
      Int.natAbs_of_nonneg hm]

/-!
## Strings: escaping and reading back
-/

theorem hexChar_spec : ∀ n < 16, isHex (hexChar n) = true ∧
    hexVal (hexChar n) = n := by decide

theorem parseStrBody_escList (s : List Char) (rest : List Char) :
    parseStrBody (escList s ++ '"' :: rest) = Option.some (s, rest) := by
  induction s with
  | nil =>
    rw [escList, List.nil_append, parseStrBody.eq_def]
    simp
  | cons c t ih =>
    by_cases h1 : c = '"'
    · subst h1
      have he : escChar '"' = ['\\', '"'] := by simp [escChar]
      rw [escList, he]
      simp only [List.cons_append, List.nil_append]
      rw [parseStrBody.eq_def]
      simp [ih]
    · by_cases h2 : c = '\\'
      · subst h2
        have he : escChar '\\' = ['\\', '\\'] := by simp [escChar]
        rw [escList, he]
        simp only [List.cons_append, List.nil_append]
        rw [parseStrBody.eq_def]
        simp [ih]
      · by_cases h3 : c = '\n'
        · subst h3
          have he : escChar '\n' = ['\\', 'n'] := by simp [escChar]
          rw [escList, he]
          simp only [List.cons_append, List.nil_append]
          rw [parseStrBody.eq_def]
          simp [ih]
        · by_cases h4 : c = '\t'
          · subst h4
            have he : escChar '\t' = ['\\', 't'] := by simp [escChar]
            rw [escList, he]
            simp only [List.cons_append, List.nil_append]
            rw [parseStrBody.eq_def]
            simp [ih]
          · by_cases h5 : c = '\r'
            · subst h5
              have he : escChar '\r' = ['\\', 'r'] := by simp [escChar]
              rw [escList, he]
              simp only [List.cons_append, List.nil_append]
              rw [parseStrBody.eq_def]
              simp [ih]
            · by_cases h6 : c.toNat = 8
              · have he : escChar c = ['\\', 'b'] := by
                  simp [escChar, h1, h2, h3, h4, h5, h6]
                rw [escList, he]
                simp only [List.cons_append, List.nil_append]
                rw [parseStrBody.eq_def]
                simp [ih]
                rw [← h6, Char.ofNat_toNat]
              · by_cases h7 : c.toNat = 12
                · have he : escChar c = ['\\', 'f'] := by
                    simp [escChar, h1, h2, h3, h4, h5, h6, h7]
                  rw [escList, he]
                  simp only [List.cons_append, List.nil_append]
                  rw [parseStrBody.eq_def]
                  simp [ih]
                  rw [← h7, Char.ofNat_toNat]
                · by_cases h8 : c.toNat < 32
                  · have he : escChar c = ['\\', 'u', '0', '0',
                        hexChar (c.toNat / 16), hexChar (c.toNat % 16)] := by
                      simp [escChar, h1, h2, h3, h4, h5, h6, h7, h8]
                    have hhi := hexChar_spec (c.toNat / 16) (by omega)
                    have hlo := hexChar_spec (c.toNat % 16) (by omega)
                    have hz : hexVal '0' = 0 := by decide
                    have hval : ((hexVal '0' * 16 + hexVal '0') * 16 +
                        hexVal (hexChar (c.toNat / 16))) * 16 +
                        hexVal (hexChar (c.toNat % 16)) = c.toNat := by
                      rw [hhi.2, hlo.2, hz]
                      omega
                    rw [escList, he]
                    simp only [List.cons_append, List.nil_append]
                    rw [parseStrBody.eq_def]
                    simp [ih, hhi.1, hlo.1, hval, Char.ofNat_toNat]
                    decide
                  · have he : escChar c = [c] := by
                      simp [escChar, h1, h2, h3, h4, h5, h6, h7, h8]
                    rw [escList, he]
                    simp only [List.cons_append, List.nil_append]
                    rw [parseStrBody.eq_def]
                    simp [ih, h1, h2, h8]

/-!
## Whitespace and dispatch facts
-/

theorem skipWs_not_ws (c : Char) (l : List Char)
    (h : ¬(c = ' ' ∨ c = '\n' ∨ c = '\t' ∨ c = '\r')) :
    skipWs (c :: l) = c :: l := by
  rw [skipWs, if_neg h]

theorem skipWs_ws_cons (c : Char) (l : List Char)
    (h : c = ' ' ∨ c = '\n' ∨ c = '\t' ∨ c = '\r') :
    skipWs (c :: l) = skipWs l := by
  rw [skipWs, if_pos h]

theorem skipWs_pad (n : Nat) (l : List Char) : skipWs (pad n ++ l) = skipWs l := by
  induction n with
  | zero => simp [pad]
  | succ n ih =>
    rw [pad, List.replicate_succ, List.cons_append,
      skipWs_ws_cons _ _ (Or.inl rfl)]
    exact ih

theorem parseVal_congr_skipWs (fuel : Nat) (s s' : List Char)
    (h : skipWs s = skipWs s') : parseVal fuel s = parseVal fuel s' := by
  cases fuel with
  | zero => rfl
  | succ f => rw [parseVal, parseVal, h]

theorem parseObjItems_congr_skipWs (fuel : Nat) (s s' : List Char)
    (h : skipWs s = skipWs s') : parseObjItems fuel s = parseObjItems fuel s' := by
  cases fuel with
  | zero => rfl
  | succ f => rw [parseObjItems, parseObjItems, h]

theorem parseListItems_congr_skipWs (fuel : Nat) (s s' : List Char)
    (h : skipWs s = skipWs s') : parseListItems fuel s = parseListItems fuel s' := by
  cases fuel with
  | zero => rfl
  | succ f => rw [parseListItems, parseListItems, parseVal_congr_skipWs f s s' h]

theorem ne_of_isDigit (c x : Char) (h : c.isDigit = true) (hx : x.isDigit = false) :
    c ≠ x := by
  intro hc
  rw [hc, hx] at h
  exact Bool.noConfusion h

theorem digit_head_dispatch (c : Char) (h : c.isDigit = true) :
    ¬(c = ' ' ∨ c = '\n' ∨ c = '\t' ∨ c = '\r') ∧ c ≠ '"' ∧ c ≠ '\x7b' ∧
      c ≠ '[' ∧ c ≠ 'n' ∧ c ≠ 't' ∧ c ≠ 'f' := by
  refine ⟨?_, ?_, ?_, ?_, ?_, ?_, ?_⟩
  · rintro (rfl | rfl | rfl | rfl) <;> exact Bool.noConfusion h
  all_goals exact ne_of_isDigit c _ h (by decide)

theorem parseVal_number (f : Nat) (c : Char) (l : List Char)
    (h : c.isDigit = true ∨ c = '-') :
    parseVal (f + 1) (c :: l) = parseNumber (c :: l) := by
  rcases h with h | rfl
  · have hd := digit_head_dispatch c h
    rw [parseVal, skipWs_not_ws c l hd.1]
    simp only [if_neg hd.2.1, if_neg hd.2.2.1, if_neg hd.2.2.2.1,
      if_neg hd.2.2.2.2.1, if_neg hd.2.2.2.2.2.1, if_neg hd.2.2.2.2.2.2]
  · rw [parseVal, skipWs_not_ws '-' l (by decide)]
    simp

theorem parseVal_intChars (f : Nat) (n : Int) (rest : List Char)
    (hrest : delimB rest = true) :
    parseVal (f + 1) (intChars n ++ rest) = Option.some (.int n, rest) := by
  rcases Int.lt_or_le n 0 with hn | hn
  · have hshape : intChars n ++ rest = '-' :: (natDigits n.natAbs ++ rest) := by
      simp [intChars, hn]
    rw [hshape, parseVal_number f '-' _ (Or.inr rfl), ← hshape,
      parseNumber_intChars n rest hrest]
  · have hshape : intChars n ++ rest = natDigits n.natAbs ++ rest := by
      simp [intChars, Int.not_lt.mpr hn]
    obtain ⟨c, t, hct⟩ := List.exists_cons_of_ne_nil (natDigits_ne_nil n.natAbs)
    have hcd : c.isDigit = true := natDigits_digits n.natAbs c (by rw [hct]; simp)
    rw [hshape, hct, List.cons_append, parseVal_number f c _ (Or.inl hcd),
      ← List.cons_append, ← hct, ← hshape, parseNumber_intChars n rest hrest]

theorem parseVal_floatChars (f : Nat) (m : Int) (e : Nat) (he : 1 ≤ e)
    (rest : List Char) (hrest : delimB rest = true) :
    parseVal (f + 1) (floatChars m e ++ rest) = Option.some (.float m e, rest) := by
  rcases Int.lt_or_le m 0 with hm | hm
  · have hshape : floatChars m e ++ rest = '-' :: ((natDigits (m.natAbs / 10 ^ e) ++
        '.' :: fracDigits (m.natAbs % 10 ^ e) e) ++ rest) := by
      simp [floatChars, hm]
    rw [hshape, parseVal_number f '-' _ (Or.inr rfl), ← hshape,
      parseNumber_floatChars m e he rest hrest]
  · have hshape : floatChars m e ++ rest = (natDigits (m.natAbs / 10 ^ e)) ++
        ('.' :: fracDigits (m.natAbs % 10 ^ e) e ++ rest) := by
      simp [floatChars, Int.not_lt.mpr hm]
    obtain ⟨c, t, hct⟩ :=
      List.exists_cons_of_ne_nil (natDigits_ne_nil (m.natAbs / 10 ^ e))
    have hcd : c.isDigit = true := natDigits_digits _ c (by rw [hct]; simp)
    rw [hshape, hct, List.cons_append, parseVal_number f c _ (Or.inl hcd),
      ← List.cons_append, ← hct, ← hshape, parseNumber_floatChars m e he rest hrest]

theorem fuelVal_pos (v : PyVal) : 1 ≤ fuelVal v := by
  cases v <;> simp [fuelVal]

theorem fuelList_pos (x : PyVal) (xs : List PyVal) : 1 ≤ fuelList (x :: xs) := by
  simp [fuelList]
  omega

theorem fuelDict_pos (kv : String × PyVal) (kvs : List (String × PyVal)) :
    1 ≤ fuelDict (kv :: kvs) := by
  obtain ⟨k, v⟩ := kv
  simp [fuelDict]
  omega

theorem dumpVal_head (v : PyVal) (ind lvl : Nat) :
    ∃ c cs, dumpVal v ind lvl = c :: cs ∧
      ¬(c = ' ' ∨ c = '\n' ∨ c = '\t' ∨ c = '\r') ∧ c ≠ ']' ∧ c ≠ '\x7d' := by
  cases v with
  | none => exact ⟨'n', ['u', 'l', 'l'], by simp [dumpVal], by decide, by decide,
      by decide⟩
  | str s => exact ⟨'"', escList s.data ++ ['"'], by simp [dumpVal], by decide,
      by decide, by decide⟩
  | bool b =>
    cases b with
    | false => exact ⟨'f', ['a', 'l', 's', 'e'], by simp [dumpVal], by decide,
        by decide, by decide⟩
    | true => exact ⟨'t', ['r', 'u', 'e'], by simp [dumpVal], by decide,
        by decide, by decide⟩
  | int n =>
    rcases Int.lt_or_le n 0 with hn | hn
    · exact ⟨'-', natDigits n.natAbs, by simp [dumpVal, intChars, hn], by decide,
        by decide, by decide⟩
    · obtain ⟨c, t, hct⟩ := List.exists_cons_of_ne_nil (natDigits_ne_nil n.natAbs)
      have hcd := natDigits_digits n.natAbs c (by rw [hct]; simp)
      exact ⟨c, t, by simp [dumpVal, intChars, Int.not_lt.mpr hn, hct],
        (digit_head_dispatch c hcd).1, ne_of_isDigit c _ hcd (by decide),
        ne_of_isDigit c _ hcd (by decide)⟩
  | float m e =>
    rcases Int.lt_or_le m 0 with hm | hm
    · exact ⟨'-', natDigits (m.natAbs / 10 ^ e) ++
        '.' :: fracDigits (m.natAbs % 10 ^ e) e,
        by simp [dumpVal, floatChars, hm], by decide, by decide, by decide⟩
    · obtain ⟨c, t, hct⟩ :=
        List.exists_cons_of_ne_nil (natDigits_ne_nil (m.natAbs / 10 ^ e))
      have hcd := natDigits_digits _ c (by rw [hct]; simp)
      refine ⟨c, t ++ '.' :: fracDigits (m.natAbs % 10 ^ e) e, ?_,
        (digit_head_dispatch c hcd).1, ne_of_isDigit c _ hcd (by decide),
        ne_of_isDigit c _ hcd (by decide)⟩
      simp [dumpVal, floatChars, Int.not_lt.mpr hm, hct]
  | list xs =>
    cases xs with
    | nil => exact ⟨'[', [']'], by simp [dumpVal], by decide, by decide, by decide⟩
    | cons x t => exact ⟨'[', '\n' :: (dumpListItems (x :: t) ind (lvl + 1) ++
        '\n' :: (pad (ind * lvl) ++ [']'])), by simp [dumpVal], by decide,
        by decide, by decide⟩
  | dict kvs =>
    cases kvs with
    | nil => exact ⟨'\x7b', ['\x7d'], by simp [dumpVal], by decide, by decide,
        by decide⟩
    | cons kv t => exact ⟨'\x7b', '\n' :: (dumpDictItems (kv :: t) ind (lvl + 1) ++
        '\n' :: (pad (ind * lvl) ++ ['\x7d'])), by simp [dumpVal], by decide,
        by decide, by decide⟩

theorem skipWs_dumpListItems (x : PyVal) (xs : List PyVal) (ind lvl : Nat)
    (M : List Char) :
    ∃ c t, skipWs (dumpListItems (x :: xs) ind lvl ++ M) = c :: t ∧
      c ≠ ']' ∧ c ≠ '\x7d' := by
  obtain ⟨c, cs, hcs, hw, hr, hb⟩ := dumpVal_head x ind lvl
  have hshape : ∃ t, dumpListItems (x :: xs) ind lvl =
      pad (ind * lvl) ++ (dumpVal x ind lvl ++ t) := by
    cases xs with
    | nil => exact ⟨[], by simp [dumpListItems]⟩
    | cons y ys => exact ⟨',' :: '\n' :: dumpListItems (y :: ys) ind lvl,
        by simp [dumpListItems]⟩
  obtain ⟨t, ht⟩ := hshape
  refine ⟨c, cs ++ (t ++ M), ?_, hr, hb⟩
  rw [ht]
  simp only [List.append_assoc, skipWs_pad]
  rw [hcs, List.cons_append, skipWs_not_ws c _ hw]

theorem skipWs_dumpDictItems (kv : String × PyVal) (kvs : List (String × PyVal))
    (ind lvl : Nat) (M : List Char) :
    ∃ t, skipWs (dumpDictItems (kv :: kvs) ind lvl ++ M) = '"' :: t := by
  obtain ⟨k, v⟩ := kv
  have hshape : ∃ t, dumpDictItems ((k, v) :: kvs) ind lvl =
      pad (ind * lvl) ++ ('"' :: t) := by
    cases kvs with
    | nil => exact ⟨escList k.data ++ '"' :: ':' :: ' ' :: dumpVal v ind lvl,
        by simp [dumpDictItems]⟩
    | cons kv2 ys => exact ⟨escList k.data ++ '"' :: ':' :: ' ' ::
        (dumpVal v ind lvl ++ ',' :: '\n' :: dumpDictItems (kv2 :: ys) ind lvl),
        by simp [dumpDictItems]⟩
  obtain ⟨t, ht⟩ := hshape
  refine ⟨t ++ M, ?_⟩
  rw [ht]
  simp only [List.append_assoc, skipWs_pad, List.cons_append]
  rw [skipWs_not_ws '"' _ (by decide)]

theorem parseVal_cons (f : Nat) (c : Char) (l : List Char)
    (h : ¬(c = ' ' ∨ c = '\n' ∨ c = '\t' ∨ c = '\r')) :
    parseVal (f + 1) (c :: l) =
      (if c = '"' then (parseStrBody l).map (fun p => (.str (String.mk p.1), p.2))
      else if c = '\x7b' then
        match skipWs l with
        | '\x7d' :: r2 => Option.some (.dict [], r2)
        | _ => (parseObjItems f l).map (fun p => (.dict p.1, p.2))
      else if c = '[' then
        match skipWs l with
        | ']' :: r2 => Option.some (.list [], r2)
        | _ => (parseListItems f l).map (fun p => (.list p.1, p.2))
      else if c = 'n' then
        if l.take 3 = ['u', 'l', 'l'] then Option.some (.none, l.drop 3)
        else Option.none
      else if c = 't' then
        if l.take 3 = ['r', 'u', 'e'] then Option.some (.bool true, l.drop 3)
        else Option.none
      else if c = 'f' then
        if l.take 4 = ['a', 'l', 's', 'e'] then Option.some (.bool false, l.drop 4)
        else Option.none
      else parseNumber (c :: l)) := by
  rw [parseVal, skipWs_not_ws c l h]

theorem parse_dump_all (fuel : Nat) :
    (∀ v ind lvl rest, serOk v = true → delimB rest = true → fuelVal v ≤ fuel →
      parseVal fuel (dumpVal v ind lvl ++ rest) = Option.some (v, rest)) ∧
    (∀ xs ind lvl rest, serOkList xs = true → xs ≠ [] → fuelList xs ≤ fuel →
      parseListItems fuel (dumpListItems xs ind (lvl + 1) ++
        '\n' :: (pad (ind * lvl) ++ ']' :: rest)) = Option.some (xs, rest)) ∧
    (∀ kvs ind lvl rest, serOkDict kvs = true → kvs ≠ [] → fuelDict kvs ≤ fuel →
      parseObjItems fuel (dumpDictItems kvs ind (lvl + 1) ++
        '\n' :: (pad (ind * lvl) ++ '\x7d' :: rest)) = Option.some (kvs, rest)) := by
  induction fuel with
  | zero =>
    refine ⟨fun v ind lvl rest _ _ hf => absurd hf ?_,
      fun xs ind lvl rest _ hne hf => ?_, fun kvs ind lvl rest _ hne hf => ?_⟩
    · have := fuelVal_pos v
      omega
    · obtain ⟨x, t, rfl⟩ := List.exists_cons_of_ne_nil hne
      have := fuelList_pos x t
      omega
    · obtain ⟨kv, t, rfl⟩ := List.exists_cons_of_ne_nil hne
      have := fuelDict_pos kv t
      omega
  | succ f ih =>
    obtain ⟨ihv, ihl, iho⟩ := ih
    refine ⟨fun v ind lvl rest hs hd hf => ?_, fun xs ind lvl rest hs hne hf => ?_,
      fun kvs ind lvl rest hs hne hf => ?_⟩
    · -- one value
      cases v with
      | none =>
        rw [show dumpVal PyVal.none ind lvl = ['n', 'u', 'l', 'l'] from by
          simp [dumpVal]]
        simp only [List.cons_append, List.nil_append]
        rw [parseVal, skipWs_not_ws _ _ (by decide)]
        simp
      | bool b =>
        cases b with
        | true =>
          rw [show dumpVal (PyVal.bool true) ind lvl = ['t', 'r', 'u', 'e'] from by
            simp [dumpVal]]
          simp only [List.cons_append, List.nil_append]
          rw [parseVal, skipWs_not_ws _ _ (by decide)]
          simp
        | false =>
          rw [show dumpVal (PyVal.bool false) ind lvl = ['f', 'a', 'l', 's', 'e']
            from by simp [dumpVal]]
          simp only [List.cons_append, List.nil_append]
          rw [parseVal, skipWs_not_ws _ _ (by decide)]
          simp
      | int n =>
        rw [show dumpVal (PyVal.int n) ind lvl = intChars n from by simp [dumpVal]]
        exact parseVal_intChars f n rest hd
      | float m e =>
        have he : 1 ≤ e := by simpa [serOk] using hs
        rw [show dumpVal (PyVal.float m e) ind lvl = floatChars m e from by
          simp [dumpVal]]
        exact parseVal_floatChars f m e he rest hd
      | str s =>
        rw [show dumpVal (PyVal.str s) ind lvl = '"' :: (escList s.data ++ ['"'])
          from by simp [dumpVal]]
        simp only [List.cons_append, List.append_assoc, List.nil_append]
        rw [parseVal, skipWs_not_ws _ _ (by decide)]
        simp [parseStrBody_escList]
      | list xs =>
        cases xs with
        | nil =>
          rw [show dumpVal (PyVal.list []) ind lvl = ['[', ']'] from by
            simp [dumpVal]]
          simp only [List.cons_append, List.nil_append]
          rw [parseVal, skipWs_not_ws _ _ (by decide)]
          simp [skipWs_not_ws (']' : Char) rest (by decide)]
        | cons x xs =>
          have hsx : serOkList (x :: xs) = true := by simpa [serOk] using hs
          have hfx : fuelList (x :: xs) ≤ f := by
            have h1 : fuelVal (PyVal.list (x :: xs)) = 1 + fuelList (x :: xs) := by
              simp [fuelVal]
            omega
          rw [show dumpVal (PyVal.list (x :: xs)) ind lvl = '[' :: '\n' ::
              (dumpListItems (x :: xs) ind (lvl + 1) ++
                '\n' :: (pad (ind * lvl) ++ [']'])) from by simp [dumpVal]]
          simp only [List.cons_append, List.append_assoc, List.nil_append]
          rw [parseVal_cons f '[' _ (by decide)]
          rw [if_neg (by decide : ¬('[' : Char) = '"'),
            if_neg (by decide : ¬('[' : Char) = '\x7b'),
            if_pos (rfl : ('[' : Char) = '[')]
          obtain ⟨c, t, hct, hcr, hcb⟩ := skipWs_dumpListItems x xs ind (lvl + 1)
            ('\n' :: (pad (ind * lvl) ++ ']' :: rest))
          have hscrut : skipWs ('\n' :: (dumpListItems (x :: xs) ind (lvl + 1) ++
              '\n' :: (pad (ind * lvl) ++ ']' :: rest))) = c :: t := by
            rw [skipWs_ws_cons _ _ (by decide)]
            exact hct
          rw [hscrut]
          split
          · next r2 heq =>
            rw [List.cons.injEq] at heq
            exact absurd heq.1 hcr
          · rw [parseListItems_congr_skipWs f _ _
              (skipWs_ws_cons '\n' _ (by decide))]
            rw [ihl (x :: xs) ind lvl rest hsx (by simp) hfx]
            rfl
      | dict kvs =>
        cases kvs with
        | nil =>
          rw [show dumpVal (PyVal.dict []) ind lvl = ['\x7b', '\x7d'] from by
            simp [dumpVal]]
          simp only [List.cons_append, List.nil_append]
          rw [parseVal, skipWs_not_ws _ _ (by decide)]
          simp [skipWs_not_ws ('\x7d' : Char) rest (by decide)]
        | cons kv kvs =>
          have hsx : serOkDict (kv :: kvs) = true := by simpa [serOk] using hs
          have hfx : fuelDict (kv :: kvs) ≤ f := by
            have h1 : fuelVal (PyVal.dict (kv :: kvs)) = 1 + fuelDict (kv :: kvs) := by
              simp [fuelVal]
            omega
          rw [show dumpVal (PyVal.dict (kv :: kvs)) ind lvl = '\x7b' :: '\n' ::
              (dumpDictItems (kv :: kvs) ind (lvl + 1) ++
                '\n' :: (pad (ind * lvl) ++ ['\x7d'])) from by simp [dumpVal]]
          simp only [List.cons_append, List.append_assoc, List.nil_append]
          rw [parseVal_cons f '\x7b' _ (by decide)]
          rw [if_neg (by decide : ¬('\x7b' : Char) = '"'),
            if_pos (rfl : ('\x7b' : Char) = '\x7b')]
          obtain ⟨t, hct⟩ := skipWs_dumpDictItems kv kvs ind (lvl + 1)
            ('\n' :: (pad (ind * lvl) ++ '\x7d' :: rest))
          have hscrut : skipWs ('\n' :: (dumpDictItems (kv :: kvs) ind (lvl + 1) ++
              '\n' :: (pad (ind * lvl) ++ '\x7d' :: rest))) = '"' :: t := by
            rw [skipWs_ws_cons _ _ (by decide)]
            exact hct
          rw [hscrut]
          split
          · next r2 heq =>
            rw [List.cons.injEq] at heq
            exact absurd heq.1 (by decide)
          · rw [parseObjItems_congr_skipWs f _ _
              (skipWs_ws_cons '\n' _ (by decide))]
            rw [iho (kv :: kvs) ind lvl rest hsx (by simp) hfx]
            rfl
    · -- array items
      obtain ⟨x, xs', rfl⟩ := List.exists_cons_of_ne_nil hne
      cases xs' with
      | nil =>
        have hsx : serOk x = true := by simpa [serOkList] using hs
        have hfx : fuelVal x ≤ f := by
          have h2 : fuelList [x] = 1 + fuelVal x + fuelList [] := by
            simp [fuelList]
          have h3 : fuelList ([] : List PyVal) = 0 := by simp [fuelList]
          omega
        rw [show dumpListItems [x] ind (lvl + 1) = pad (ind * (lvl + 1)) ++
            dumpVal x ind (lvl + 1) from by simp [dumpListItems]]
        simp only [List.append_assoc]
        rw [parseListItems, parseVal_congr_skipWs f _ _ (skipWs_pad _ _)]
        rw [ihv x ind (lvl + 1) ('\n' :: (pad (ind * lvl) ++ ']' :: rest)) hsx
          (by simp [delimB]) hfx]
        have hts : skipWs ('\n' :: (pad (ind * lvl) ++ ']' :: rest)) =
            ']' :: rest := by
          rw [skipWs_ws_cons _ _ (by decide), skipWs_pad,
            skipWs_not_ws _ _ (by decide)]
        simp [hts]
      | cons y ys =>
        have hsx : serOk x = true := by simp [serOkList] at hs; exact hs.1
        have hsy : serOkList (y :: ys) = true := by
          simp [serOkList] at hs
          simp [serOkList, hs.2.1, hs.2.2]
        have h2 : fuelList (x :: y :: ys) = 1 + fuelVal x + fuelList (y :: ys) := by
          simp [fuelList]
        have hfx : fuelVal x ≤ f := by
          have := fuelList_pos y ys
          omega
        have hfy : fuelList (y :: ys) ≤ f := by
          have := fuelVal_pos x
          omega
        rw [show dumpListItems (x :: y :: ys) ind (lvl + 1) =
            pad (ind * (lvl + 1)) ++ (dumpVal x ind (lvl + 1) ++
              ',' :: '\n' :: dumpListItems (y :: ys) ind (lvl + 1)) from by
          simp [dumpListItems]]
        simp only [List.append_assoc, List.cons_append]
        rw [parseListItems, parseVal_congr_skipWs f _ _ (skipWs_pad _ _)]
        rw [ihv x ind (lvl + 1) (',' :: '\n' :: (dumpListItems (y :: ys) ind
          (lvl + 1) ++ '\n' :: (pad (ind * lvl) ++ ']' :: rest))) hsx
          (by simp [delimB]) hfx]
        simp only []
        rw [skipWs_not_ws _ _ (by decide)]
        simp only []
        rw [parseListItems_congr_skipWs f _ _ (skipWs_ws_cons '\n' _ (by decide))]
        rw [ihl (y :: ys) ind lvl rest hsy (by simp) hfy]
        rfl
    · -- object items
      obtain ⟨kv, kvs', rfl⟩ := List.exists_cons_of_ne_nil hne
      obtain ⟨k, v⟩ := kv
      cases kvs' with
      | nil =>
        have hsv : serOk v = true := by simpa [serOkDict] using hs
        have hfv : fuelVal v ≤ f := by
          have h2 : fuelDict [(k, v)] = 1 + fuelVal v + fuelDict [] := by
            simp [fuelDict]
          have h3 : fuelDict ([] : List (String × PyVal)) = 0 := by simp [fuelDict]
          omega
        rw [show dumpDictItems [(k, v)] ind (lvl + 1) = pad (ind * (lvl + 1)) ++
            ('"' :: (escList k.data ++ '"' :: ':' :: ' ' ::
              dumpVal v ind (lvl + 1))) from by simp [dumpDictItems]]
        simp only [List.append_assoc, List.cons_append]
        rw [parseObjItems]
        rw [show skipWs (pad (ind * (lvl + 1)) ++ ('"' :: (escList k.data ++
            '"' :: ':' :: ' ' :: (dumpVal v ind (lvl + 1) ++
              '\n' :: (pad (ind * lvl) ++ '\x7d' :: rest))))) =
            '"' :: (escList k.data ++ '"' :: (':' :: ' ' ::
              (dumpVal v ind (lvl + 1) ++
                '\n' :: (pad (ind * lvl) ++ '\x7d' :: rest)))) from by
          rw [skipWs_pad, skipWs_not_ws _ _ (by decide)]]
        simp only []
        rw [parseStrBody_escList]
        simp only []
        rw [skipWs_not_ws _ _ (by decide)]
        simp only []
        rw [parseVal_congr_skipWs f _ _ (skipWs_ws_cons ' ' _ (by decide))]
        rw [ihv v ind (lvl + 1) ('\n' :: (pad (ind * lvl) ++ '\x7d' :: rest)) hsv
          (by simp [delimB]) hfv]
        simp only []
        rw [show skipWs ('\n' :: (pad (ind * lvl) ++ '\x7d' :: rest)) =
            '\x7d' :: rest from by
          rw [skipWs_ws_cons _ _ (by decide), skipWs_pad,
            skipWs_not_ws _ _ (by decide)]]
        simp only []
      | cons kv2 kvs2 =>
        have hsv : serOk v = true := by simp [serOkDict] at hs; exact hs.1
        have hsy : serOkDict (kv2 :: kvs2) = true := by
          obtain ⟨k2, v2⟩ := kv2
          simp [serOkDict] at hs
          simp [serOkDict, hs.2.1, hs.2.2]
        have h2 : fuelDict ((k, v) :: kv2 :: kvs2) =
            1 + fuelVal v + fuelDict (kv2 :: kvs2) := by
          simp [fuelDict]
        have hfv : fuelVal v ≤ f := by
          have := fuelDict_pos kv2 kvs2
          omega
        have hfy : fuelDict (kv2 :: kvs2) ≤ f := by
          have := fuelVal_pos v
          omega
        rw [show dumpDictItems ((k, v) :: kv2 :: kvs2) ind (lvl + 1) =
            pad (ind * (lvl + 1)) ++ ('"' :: (escList k.data ++ '"' :: ':' :: ' ' ::
              (dumpVal v ind (lvl + 1) ++ ',' :: '\n' ::
                dumpDictItems (kv2 :: kvs2) ind (lvl + 1)))) from by
          simp [dumpDictItems]]
        simp only [List.append_assoc, List.cons_append]
        rw [parseObjItems]
        rw [show skipWs (pad (ind * (lvl + 1)) ++ ('"' :: (escList k.data ++
            '"' :: ':' :: ' ' :: (dumpVal v ind (lvl + 1) ++ ',' :: '\n' ::
              (dumpDictItems (kv2 :: kvs2) ind (lvl + 1) ++
                '\n' :: (pad (ind * lvl) ++ '\x7d' :: rest)))))) =
            '"' :: (escList k.data ++ '"' :: (':' :: ' ' ::
              (dumpVal v ind (lvl + 1) ++ ',' :: '\n' ::
                (dumpDictItems (kv2 :: kvs2) ind (lvl + 1) ++
                  '\n' :: (pad (ind * lvl) ++ '\x7d' :: rest))))) from by
          rw [skipWs_pad, skipWs_not_ws _ _ (by decide)]]
        simp only []
        rw [parseStrBody_escList]
        simp only []
        rw [skipWs_not_ws _ _ (by decide)]
        simp only []
        rw [parseVal_congr_skipWs f _ _ (skipWs_ws_cons ' ' _ (by decide))]
        rw [ihv v ind (lvl + 1) (',' :: '\n' :: (dumpDictItems (kv2 :: kvs2) ind
          (lvl + 1) ++ '\n' :: (pad (ind * lvl) ++ '\x7d' :: rest))) hsv
          (by simp [delimB]) hfv]
        simp only []
        rw [skipWs_not_ws _ _ (by decide)]
        simp only []
        rw [parseObjItems_congr_skipWs f _ _ (skipWs_ws_cons '\n' _ (by decide))]
        rw [iho (kv2 :: kvs2) ind lvl rest hsy (by simp) hfy]
        rfl

/-!
## Printed length bounds the fuel needed
-/

theorem natDigits_length_pos (a : Nat) : 0 < (natDigits a).length :=
  List.length_pos.mpr (natDigits_ne_nil a)

theorem fuel_le_dump_len (n : Nat) :
    (∀ v ind lvl, fuelVal v ≤ n → fuelVal v ≤ (dumpVal v ind lvl).length) ∧
    (∀ xs ind lvl, fuelList xs ≤ n →
      fuelList xs ≤ (dumpListItems xs ind lvl).length + 1) ∧
    (∀ kvs ind lvl, fuelDict kvs ≤ n →
      fuelDict kvs ≤ (dumpDictItems kvs ind lvl).length + 1) := by
  induction n with
  | zero =>
    refine ⟨fun v ind lvl hf => absurd hf ?_, fun xs ind lvl hf => ?_,
      fun kvs ind lvl hf => ?_⟩
    · have := fuelVal_pos v
      omega
    · cases xs with
      | nil => simp [fuelList]
      | cons x t =>
        exact absurd hf (by have := fuelList_pos x t; omega)
    · cases kvs with
      | nil => simp [fuelDict]
      | cons kv t =>
        exact absurd hf (by have := fuelDict_pos kv t; omega)
  | succ n ih =>
    obtain ⟨ihv, ihl, ihd⟩ := ih
    refine ⟨fun v ind lvl hf => ?_, fun xs ind lvl hf => ?_,
      fun kvs ind lvl hf => ?_⟩
    · cases v with
      | none => simp [fuelVal, dumpVal]
      | bool b => cases b <;> simp [fuelVal, dumpVal]
      | int n' =>
        have := natDigits_length_pos n'.natAbs
        simp only [fuelVal, dumpVal, intChars]
        rcases Int.lt_or_le n' 0 with hn | hn <;>
          simp [hn, Int.not_lt.mpr] <;> omega
      | float m e =>
        have := natDigits_length_pos (m.natAbs / 10 ^ e)
        simp only [fuelVal, dumpVal, floatChars]
        rcases Int.lt_or_le m 0 with hm | hm <;>
          simp [hm, Int.not_lt.mpr] <;> omega
      | str s => simp [fuelVal, dumpVal]
      | list xs =>
        cases xs with
        | nil => simp [fuelVal, fuelList, dumpVal]
        | cons x t =>
          have h1 : fuelVal (PyVal.list (x :: t)) = 1 + fuelList (x :: t) := by
            simp [fuelVal]
          have h2 := ihl (x :: t) ind (lvl + 1) (by omega)
          simp only [dumpVal, h1, List.length_cons, List.length_append]
          omega
      | dict kvs =>
        cases kvs with
        | nil => simp [fuelVal, fuelDict, dumpVal]
        | cons kv t =>
          have h1 : fuelVal (PyVal.dict (kv :: t)) = 1 + fuelDict (kv :: t) := by
            simp [fuelVal]
          have h2 := ihd (kv :: t) ind (lvl + 1) (by omega)
          simp only [dumpVal, h1, List.length_cons, List.length_append]
          omega
    · cases xs with
      | nil => simp [fuelList]
      | cons x t =>
        cases t with
        | nil =>
          have h1 : fuelList [x] = 1 + fuelVal x + fuelList [] := by
            simp [fuelList]
          have h0 : fuelList ([] : List PyVal) = 0 := by simp [fuelList]
          have h2 := ihv x ind lvl (by omega)
          simp only [dumpListItems, List.length_append, h1, h0]
          omega
        | cons y ys =>
          have h1 : fuelList (x :: y :: ys) = 1 + fuelVal x + fuelList (y :: ys) := by
            simp [fuelList]
          have h2 := ihv x ind lvl (by omega)
          have h3 := ihl (y :: ys) ind lvl (by omega)
          simp only [dumpListItems, List.length_append, List.length_cons, h1]
          omega
    · cases kvs with
      | nil => simp [fuelDict]
      | cons kv t =>
        obtain ⟨k, v⟩ := kv
        cases t with
        | nil =>
          have h1 : fuelDict [(k, v)] = 1 + fuelVal v + fuelDict [] := by
            simp [fuelDict]
          have h0 : fuelDict ([] : List (String × PyVal)) = 0 := by simp [fuelDict]
          have h2 := ihv v ind lvl (by omega)
          simp only [dumpDictItems, List.length_append, List.length_cons, h1, h0]
          omega
        | cons kv2 ys =>
          have h1 : fuelDict ((k, v) :: kv2 :: ys) =
              1 + fuelVal v + fuelDict (kv2 :: ys) := by
            simp [fuelDict]
          have h2 := ihv v ind lvl (by omega)
          have h3 := ihd (kv2 :: ys) ind lvl (by omega)
          simp only [dumpDictItems, List.length_append, List.length_cons, h1]
          omega

/-- Reading back the pretty-printed form of any serialisable value returns
exactly that value. -/
theorem json_loads_format_json (v : PyVal) (hs : serOk v = true) :
    json_loads (TranscriberService.format_json v 2) = Option.some v := by
  rw [TranscriberService.format_json, json_loads]
  have hlen : fuelVal v ≤ (dumpVal v 2 0).length + 1 := by
    have := (fuel_le_dump_len (fuelVal v)).1 v 2 0 le_rfl
    omega
  have h := (parse_dump_all ((dumpVal v 2 0).length + 1)).1 v 2 0 [] hs
    (by simp [delimB]) hlen
  rw [List.append_nil] at h
  rw [show (String.mk (dumpVal v 2 0)).data = dumpVal v 2 0 from rfl, h]
  simp [skipWs]

/-!
## `convert` only builds serialisable payloads
-/

theorem serOk_lookupKey (kwargs : List (String × PyVal)) (name : String) (v : PyVal)
    (hk : ∀ kv ∈ kwargs, serOk kv.2 = true)
    (h : lookupKey kwargs name = Option.some v) : serOk v = true := by
  induction kwargs with
  | nil => simp [lookupKey] at h
  | cons kv rest ih =>
    obtain ⟨k0, v0⟩ := kv
    rw [lookupKey] at h
    by_cases hk0 : k0 = name
    · rw [if_pos hk0] at h
      have hv : v0 = v := by simpa using h
      subst hv
      exact hk (k0, v0) (by simp)
    · rw [if_neg hk0] at h
      exact ih (fun kv hkv => hk kv (by simp [hkv])) h

theorem serOk_getKw (kwargs : List (String × PyVal)) (name : String) (dflt : PyVal)
    (hk : ∀ kv ∈ kwargs, serOk kv.2 = true) (hd : serOk dflt = true) :
    serOk (getKw kwargs name dflt) = true := by
  rw [getKw]
  cases hl : lookupKey kwargs name with
  | none => simpa using hd
  | some v => simpa using serOk_lookupKey kwargs name v hk hl

theorem serOkDict_setKey (d : List (String × PyVal)) (k : String) (v : PyVal)
    (hd : serOkDict d = true) (hv : serOk v = true) :
    serOkDict (setKey d k v) = true := by
  induction d with
  | nil => simp [setKey, serOkDict, hv]
  | cons kv rest ih =>
    obtain ⟨k0, v0⟩ := kv
    simp only [serOkDict, Bool.and_eq_true] at hd
    rw [setKey]
    by_cases hk0 : k0 = k
    · rw [if_pos hk0]
      simp [serOkDict, hv, hd.2]
    · rw [if_neg hk0]
      simp [serOkDict, hd.1, ih hd.2]

theorem serOkDict_dictUpdate (d other : List (String × PyVal))
    (hd : serOkDict d = true) (ho : serOkDict other = true) :
    serOkDict (dictUpdate d other) = true := by
  induction other generalizing d with
  | nil => simpa [dictUpdate] using hd
  | cons kv rest ih =>
    obtain ⟨k0, v0⟩ := kv
    simp only [serOkDict, Bool.and_eq_true] at ho
    rw [dictUpdate, List.foldl_cons]
    exact ih (setKey d k0 v0) (serOkDict_setKey d k0 v0 hd ho.1) ho.2

theorem serOk_text_to_openai (text : String) (model sys temp mt : PyVal)
    (h1 : serOk model = true) (h2 : serOk sys = true) (h3 : serOk temp = true)
    (h4 : serOk mt = true) :
    serOk (TranscriberService.text_to_openai text model sys temp mt) = true := by
  rw [TranscriberService.text_to_openai]
  cases hts : truthy sys <;> cases htm : truthy mt <;>
    simp [serOk, serOkDict, serOkList, setKey, h1, h2, h3, h4]

theorem serOk_text_to_anthropic (text : String) (model sys temp mt : PyVal)
    (h1 : serOk model = true) (h2 : serOk sys = true) (h3 : serOk temp = true)
    (h4 : serOk mt = true) :
    serOk (TranscriberService.text_to_anthropic text model sys temp mt) = true := by
  rw [TranscriberService.text_to_anthropic]
  cases hts : truthy sys <;>
    simp [serOk, serOkDict, serOkList, setKey, h1, h2, h3, h4]

theorem serOk_text_to_ollama (text : String) (model sys stream : PyVal)
    (h1 : serOk model = true) (h2 : serOk sys = true) (h3 : serOk stream = true) :
    serOk (TranscriberService.text_to_ollama text model sys stream) = true := by
  rw [TranscriberService.text_to_ollama]
  cases hts : truthy sys <;>
    simp [serOk, serOkDict, serOkList, setKey, h1, h2, h3]

theorem serOk_text_to_google (text : String) (model sys temp mt : PyVal)
    (h1 : serOk model = true) (h2 : serOk sys = true) (h3 : serOk temp = true)
    (h4 : serOk mt = true) :
    serOk (TranscriberService.text_to_google text model sys temp mt) = true := by
  rw [TranscriberService.text_to_google]
  cases hts : truthy sys <;> cases htm : truthy mt <;>
    simp [serOk, serOkDict, serOkList, setKey, h1, h2, h3, h4]

theorem serOk_text_to_cohere (text : String) (model sys temp mt : PyVal)
    (h1 : serOk model = true) (h2 : serOk sys = true) (h3 : serOk temp = true)
    (h4 : serOk mt = true) :
    serOk (TranscriberService.text_to_cohere text model sys temp mt) = true := by
  rw [TranscriberService.text_to_cohere]
  cases hts : truthy sys <;> cases htm : truthy mt <;>
    simp [serOk, serOkDict, serOkList, setKey, h1, h2, h3, h4]

theorem serOk_text_to_huggingface (text : String) (model params : PyVal)
    (h1 : serOk model = true) (h2 : serOk params = true) :
    serOk (TranscriberService.text_to_huggingface text model params) = true := by
  rw [TranscriberService.text_to_huggingface]
  cases htp : truthy params <;>
    simp [serOk, serOkDict, serOkList, TranscriberService.hfDefaultParameters, h2]

theorem serOk_text_to_generic (text now : String) (model ap : PyVal)
    (h1 : serOk model = true) (h2 : serOk ap = true) (payload : PyVal)
    (h : TranscriberService.text_to_generic text model ap now = .ok payload) :
    serOk payload = true := by
  have hbase : serOkDict [("model", model), ("input", PyVal.str text),
      ("timestamp", PyVal.str now)] = true := by simp [serOkDict, serOk, h1]
  cases ap with
  | dict kvs =>
    rw [show TranscriberService.text_to_generic text model (PyVal.dict kvs) now =
        (if truthy (PyVal.dict kvs) then
          Except.ok (PyVal.dict (dictUpdate [("model", model),
            ("input", PyVal.str text), ("timestamp", PyVal.str now)] kvs))
        else Except.ok (PyVal.dict [("model", model), ("input", PyVal.str text),
          ("timestamp", PyVal.str now)])) from rfl] at h
    have hkvs : serOkDict kvs = true := by simpa [serOk] using h2
    by_cases hta : truthy (PyVal.dict kvs) = true
    · rw [if_pos hta, Except.ok.injEq] at h
      subst h
      simpa [serOk] using serOkDict_dictUpdate _ kvs hbase hkvs
    · rw [if_neg hta, Except.ok.injEq] at h
      subst h
      simpa [serOk] using hbase
  | none =>
    rw [show TranscriberService.text_to_generic text model PyVal.none now =
        Except.ok (PyVal.dict [("model", model), ("input", PyVal.str text),
          ("timestamp", PyVal.str now)]) from rfl, Except.ok.injEq] at h
    subst h
    simpa [serOk] using hbase
  | str s =>
    rw [show TranscriberService.text_to_generic text model (PyVal.str s) now =
        (if truthy (PyVal.str s) then
          Except.error "TypeError: additional_params is not a mapping"
        else Except.ok (PyVal.dict [("model", model), ("input", PyVal.str text),
          ("timestamp", PyVal.str now)])) from rfl] at h
    by_cases hta : truthy (PyVal.str s) = true
    · rw [if_pos hta] at h
      exact absurd h (by simp)
    · rw [if_neg hta, Except.ok.injEq] at h
      subst h
      simpa [serOk] using hbase
  | int n =>
    rw [show TranscriberService.text_to_generic text model (PyVal.int n) now =
        (if truthy (PyVal.int n) then
          Except.error "TypeError: additional_params is not a mapping"
        else Except.ok (PyVal.dict [("model", model), ("input", PyVal.str text),
          ("timestamp", PyVal.str now)])) from rfl] at h
    by_cases hta : truthy (PyVal.int n) = true
    · rw [if_pos hta] at h
      exact absurd h (by simp)
    · rw [if_neg hta, Except.ok.injEq] at h
      subst h
      simpa [serOk] using hbase
  | float m e =>
    rw [show TranscriberService.text_to_generic text model (PyVal.float m e) now =
        (if truthy (PyVal.float m e) then
          Except.error "TypeError: additional_params is not a mapping"
        else Except.ok (PyVal.dict [("model", model), ("input", PyVal.str text),
          ("timestamp", PyVal.str now)])) from rfl] at h
    by_cases hta : truthy (PyVal.float m e) = true
    · rw [if_pos hta] at h
      exact absurd h (by simp)
    · rw [if_neg hta, Except.ok.injEq] at h
      subst h
      simpa [serOk] using hbase
  | bool b =>
    rw [show TranscriberService.text_to_generic text model (PyVal.bool b) now =
        (if truthy (PyVal.bool b) then
          Except.error "TypeError: additional_params is not a mapping"
        else Except.ok (PyVal.dict [("model", model), ("input", PyVal.str text),
          ("timestamp", PyVal.str now)])) from rfl] at h
    by_cases hta : truthy (PyVal.bool b) = true
    · rw [if_pos hta] at h
      exact absurd h (by simp)
    · rw [if_neg hta, Except.ok.injEq] at h
      subst h
      simpa [serOk] using hbase
  | list xs =>
    rw [show TranscriberService.text_to_generic text model (PyVal.list xs) now =
        (if truthy (PyVal.list xs) then
          Except.error "TypeError: additional_params is not a mapping"
        else Except.ok (PyVal.dict [("model", model), ("input", PyVal.str text),
          ("timestamp", PyVal.str now)])) from rfl] at h
    by_cases hta : truthy (PyVal.list xs) = true
    · rw [if_pos hta] at h
      exact absurd h (by simp)
    · rw [if_neg hta, Except.ok.injEq] at h
      subst h
      simpa [serOk] using hbase

theorem serOk_convert (now text provider : String) (kwargs : List (String × PyVal))
    (payload : PyVal) (hk : ∀ kv ∈ kwargs, serOk kv.2 = true)
    (h : TranscriberService.convert now text provider kwargs = .ok payload) :
    serOk payload = true := by
  by_cases hmem : pyLower provider ∈ TranscriberService.SUPPORTED_PROVIDERS
  case neg =>
    have hc : TranscriberService.SUPPORTED_PROVIDERS.contains (pyLower provider) =
        false := by simpa using hmem
    simp only [TranscriberService.convert, hc, Bool.false_eq_true,
      not_false_eq_true, if_true] at h
    exact absurd h (by simp)
  case pos =>
    have h7 : pyLower provider = "openai" ∨ pyLower provider = "anthropic" ∨
        pyLower provider = "ollama" ∨ pyLower provider = "google" ∨
        pyLower provider = "cohere" ∨ pyLower provider = "huggingface" ∨
        pyLower provider = "generic" := by
      simpa [TranscriberService.SUPPORTED_PROVIDERS] using hmem
    have hgk := fun name dflt (hd : serOk dflt = true) =>
      serOk_getKw kwargs name dflt hk hd
    rcases h7 with hp | hp | hp | hp | hp | hp | hp
    · have heq : TranscriberService.convert now text provider kwargs =
          TranscriberService.convert now text "openai" kwargs := by
        rw [TranscriberService.convert, TranscriberService.convert, hp,
          show pyLower "openai" = "openai" from rfl]
      rw [heq, convert_openai_eq] at h
      cases hck : TranscriberService.checkKw "openai" kwargs with
      | error e => rw [hck] at h; simp at h
      | ok u =>
        rw [hck] at h
        simp only [] at h
        rw [Except.ok.injEq] at h
        subst h
        exact serOk_text_to_openai text _ _ _ _ (hgk _ _ (by simp [serOk]))
          (hgk _ _ (by simp [serOk])) (hgk _ _ (by simp [serOk]))
          (hgk _ _ (by simp [serOk]))
    · have heq : TranscriberService.convert now text provider kwargs =
          TranscriberService.convert now text "anthropic" kwargs := by
        rw [TranscriberService.convert, TranscriberService.convert, hp,
          show pyLower "anthropic" = "anthropic" from rfl]
      rw [heq, convert_anthropic_eq] at h
      cases hck : TranscriberService.checkKw "anthropic" kwargs with
      | error e => rw [hck] at h; simp at h
      | ok u =>
        rw [hck] at h
        simp only [] at h
        rw [Except.ok.injEq] at h
        subst h
        exact serOk_text_to_anthropic text _ _ _ _ (hgk _ _ (by simp [serOk]))
          (hgk _ _ (by simp [serOk])) (hgk _ _ (by simp [serOk]))
          (hgk _ _ (by simp [serOk]))
    · have heq : TranscriberService.convert now text provider kwargs =
          TranscriberService.convert now text "ollama" kwargs := by
        rw [TranscriberService.convert, TranscriberService.convert, hp,
          show pyLower "ollama" = "ollama" from rfl]
      rw [heq, convert_ollama_eq] at h
      cases hck : TranscriberService.checkKw "ollama" kwargs with
      | error e => rw [hck] at h; simp at h
      | ok u =>
        rw [hck] at h
        simp only [] at h
        rw [Except.ok.injEq] at h
        subst h
        exact serOk_text_to_ollama text _ _ _ (hgk _ _ (by simp [serOk]))
          (hgk _ _ (by simp [serOk])) (hgk _ _ (by simp [serOk]))
    · have heq : TranscriberService.convert now text provider kwargs =
          TranscriberService.convert now text "google" kwargs := by
        rw [TranscriberService.convert, TranscriberService.convert, hp,
          show pyLower "google" = "google" from rfl]
      rw [heq, convert_google_eq] at h
      cases hck : TranscriberService.checkKw "google" kwargs with
      | error e => rw [hck] at h; simp at h
      | ok u =>
        rw [hck] at h
        simp only [] at h
        rw [Except.ok.injEq] at h
        subst h
        exact serOk_text_to_google text _ _ _ _ (hgk _ _ (by simp [serOk]))
          (hgk _ _ (by simp [serOk])) (hgk _ _ (by simp [serOk]))
          (hgk _ _ (by simp [serOk]))
    · have heq : TranscriberService.convert now text provider kwargs =
          TranscriberService.convert now text "cohere" kwargs := by
        rw [TranscriberService.convert, TranscriberService.convert, hp,
          show pyLower "cohere" = "cohere" from rfl]
      rw [heq, convert_cohere_eq] at h
      cases hck : TranscriberService.checkKw "cohere" kwargs with
      | error e => rw [hck] at h; simp at h
      | ok u =>
        rw [hck] at h
        simp only [] at h
        rw [Except.ok.injEq] at h
        subst h
        exact serOk_text_to_cohere text _ _ _ _ (hgk _ _ (by simp [serOk]))
          (hgk _ _ (by simp [serOk])) (hgk _ _ (by simp [serOk]))
          (hgk _ _ (by simp [serOk]))
    · have heq : TranscriberService.convert now text provider kwargs =
          TranscriberService.convert now text "huggingface" kwargs := by
        rw [TranscriberService.convert, TranscriberService.convert, hp,
          show pyLower "huggingface" = "huggingface" from rfl]
      rw [heq, convert_huggingface_eq] at h
      cases hck : TranscriberService.checkKw "huggingface" kwargs with
      | error e => rw [hck] at h; simp at h
      | ok u =>
        rw [hck] at h
        simp only [] at h
        rw [Except.ok.injEq] at h
        subst h
        exact serOk_text_to_huggingface text _ _ (hgk _ _ (by simp [serOk]))
          (hgk _ _ (by simp [serOk]))
    · have heq : TranscriberService.convert now text provider kwargs =
          TranscriberService.convert now text "generic" kwargs := by
        rw [TranscriberService.convert, TranscriberService.convert, hp,
          show pyLower "generic" = "generic" from rfl]
      rw [heq, convert_generic_eq] at h
      cases hck : TranscriberService.checkKw "generic" kwargs with
      | error e => rw [hck] at h; simp at h
      | ok u =>
        rw [hck] at h
        simp only [] at h
        exact serOk_text_to_generic text now _ _ (hgk _ _ (by simp [serOk]))
          (hgk _ _ (by simp [serOk])) payload h

/-- C4: every payload a successful `convert` produces pretty-prints
(`format_json`, i.e. `json.dumps(..., indent=2, ensure_ascii=False)`) to
valid JSON text whose parse is structurally equal to the payload — reading
back what was written returns the payload itself — and every character from
space upwards other than `"` and `\` (in particular all non-ASCII text) is
written literally, unescaped. -/
theorem format_json_roundtrip (now text provider : String)
    (kwargs : List (String × PyVal)) (payload : PyVal)
    (hk : ∀ kv ∈ kwargs, serOk kv.2 = true)
    (h : TranscriberService.convert now text provider kwargs = .ok payload) :
    json_loads (TranscriberService.format_json payload 2) = Option.some payload ∧
    (∀ c : Char, 32 ≤ c.toNat → c ≠ '"' → c ≠ '\\' → escChar c = [c]) := by
  refine ⟨json_loads_format_json payload
    (serOk_convert now text provider kwargs payload hk h), ?_⟩
  intro c hc h1 h2
  have h3 : c ≠ '\n' := fun he => by subst he; revert hc; decide
  have h4 : c ≠ '\t' := fun he => by subst he; revert hc; decide
  have h5 : c ≠ '\r' := fun he => by subst he; revert hc; decide
  have h6 : ¬ c.toNat = 8 := by omega
  have h7 : ¬ c.toNat = 12 := by omega
  have h8 : ¬ c.toNat < 32 := by omega
  simp [escChar, h1, h2, h3, h4, h5, h6, h7, h8]

/-- Witness for C4: the default openai payload for text "hi" round-trips. -/
theorem format_json_roundtrip_witness :
    json_loads (TranscriberService.format_json (PyVal.dict [("model", .str "gpt-4"),
      ("messages", .list [.dict [("role", .str "user"), ("content", .str "hi")]]),
      ("temperature", .float 7 1)]) 2) =
      Option.some (PyVal.dict [("model", .str "gpt-4"),
        ("messages", .list [.dict [("role", .str "user"), ("content", .str "hi")]]),
        ("temperature", .float 7 1)]) ∧
    (∀ c : Char, 32 ≤ c.toNat → c ≠ '"' → c ≠ '\\' → escChar c = [c]) :=
  format_json_roundtrip "t" "hi" "openai" []
    (PyVal.dict [("model", .str "gpt-4"),
      ("messages", .list [.dict [("role", .str "user"), ("content", .str "hi")]]),
      ("temperature", .float 7 1)]) (by simp) rfl
